import Mathlib

/-!
Shallow embedding of the cpusage CLI core (file src/app.ts of the repository
doggy8088/cpusage), together with theorems settling the specification claims.

Modelling conventions:
* JavaScript numbers are modelled as rationals (ℚ); the program performs no
  operation on them whose result would be changed by IEEE-754 rounding in any
  of the statements proved below.
* JavaScript strings are modelled as Lean strings; string order (used by the
  default Array.sort comparator and by the < and > comparisons on aggregation
  keys) is modelled by the lexicographic comparison charListLt on the
  character lists, which agrees with the UTF-16 code-unit order of JavaScript
  for the basic-multilingual-plane characters appearing in keys and model
  names.
* JavaScript Date values are modelled at hour resolution (structure
  LocalDate) in a fixed host timezone; getFullYear, getMonth, getDate and
  getHours read the fields, and the setDate / setMonth / setHours increments
  of the gap-fill loop are modelled by the calendar successor functions
  below. The two-digit-year quirk of the Date constructor and sub-hour
  resolution are not modelled; no claim depends on them.
* Maps (the Map objects and the aggStats record) are modelled as association
  lists in insertion order, with lookup and an in-place set that mirrors the
  JavaScript semantics of Map.set and property assignment.
-/

namespace Cpusage

/-! ## JavaScript string primitives -/

/-- Lexicographic comparison of character lists, modelling the JavaScript
string `<` comparison (code-unit order). -/
def charListLt : List Char → List Char → Bool
  | [], [] => false
  | [], _ :: _ => true
  | _ :: _, [] => false
  | a :: as, b :: bs => if a < b then true else if b < a then false else charListLt as bs

/-- JavaScript string strict comparison `s < t`. -/
def strLt (s t : String) : Bool := charListLt s.data t.data

/-- JavaScript string comparison `s <= t`, the order used by the default
Array.sort comparator. -/
def strLe (s t : String) : Bool := !(strLt t s)

/-- JavaScript `a || b` for two strings (the empty string is falsy). -/
def jsOrStr (a b : String) : String := if a = "" then b else a

/-- JavaScript `a || b` where `a` is a possibly-null string (null and the
empty string are falsy). -/
def jsOrOpt (a b : Option String) : Option String :=
  match a with
  | none => b
  | some s => if s = "" then b else some s

/-- JavaScript `hint || fallback` where `hint` is a possibly-undefined string
field and the fallback is a string: used for the model-hint chains. -/
def hintOr (a : Option String) (b : String) : String :=
  match a with
  | none => b
  | some s => if s = "" then b else s

/-- Decimal digit list of a natural number (workhorse with explicit fuel;
`fuel = n + 1` always suffices). Models the JavaScript number-to-string
conversion for the non-negative integers this program renders. -/
def natDigitsGo : Nat → Nat → List Char
  | 0, _ => []
  | fuel + 1, n => if n < 10 then [Nat.digitChar n] else natDigitsGo fuel (n / 10) ++ [Nat.digitChar (n % 10)]

/-- Decimal string of a natural number (JavaScript template-literal
rendering `${n}` of a non-negative integer). -/
def natToStr (n : Nat) : String := String.mk (natDigitsGo (n + 1) n)

/-- Models `String(n).padStart(2, "0")` from getAggregationKey. -/
def pad2 (n : Nat) : String :=
  let s := natToStr n
  if s.length < 2 then "0" ++ s else s

/-- Splits a character list at a separator, modelling String.prototype.split
with a single-character separator. -/
def splitCL (sep : Char) : List Char → List (List Char)
  | [] => [[]]
  | c :: t =>
    match splitCL sep t with
    | [] => [[]]
    | h :: r => if c = sep then [] :: h :: r else (c :: h) :: r

/-- Reads a digit string as a number; models `Number(s)` and `parseInt(s, 10)`
on the all-digit component strings produced by getAggregationKey. -/
def parseNatCL (l : List Char) : Nat :=
  l.foldl (fun a c => 10 * a + (c.toNat - '0'.toNat)) 0

/-- Tests whether the first list is a prefix of the second. -/
def startsWithCL : List Char → List Char → Bool
  | [], _ => true
  | _ :: _, [] => false
  | a :: as, b :: bs => a = b && startsWithCL as bs

/-- Tests whether `needle` occurs inside `hay`; models
String.prototype.includes. -/
def containsCL : List Char → List Char → Bool
  | [], needle => needle.isEmpty
  | h :: t, needle => startsWithCL needle (h :: t) || containsCL t needle

/-- JavaScript `hay.includes(needle)`. -/
def strIncludes (hay needle : String) : Bool := containsCL hay.data needle.data

/-- Hexadecimal digit test, as in the UUID_PATTERN character class (the
pattern carries the `i` flag, so both cases are admitted). -/
def isHexDigit (c : Char) : Bool :=
  ('0' ≤ c && c ≤ '9') || ('a' ≤ c && c ≤ 'f') || ('A' ≤ c && c ≤ 'F')

/-- Models UUID_PATTERN.test: five hyphen-separated groups of hexadecimal
digits with lengths 8-4-4-4-12. -/
def isUuid (s : String) : Bool :=
  match splitCL '-' s.data with
  | [a, b, c, d, e] =>
    a.length = 8 && b.length = 4 && c.length = 4 && d.length = 4 && e.length = 12 &&
      (a ++ b ++ c ++ d ++ e).all isHexDigit
  | _ => false

/-! ## JavaScript Date model -/

/-- A JavaScript Date at hour resolution, read through getFullYear /
getMonth + 1 / getDate / getHours in the host timezone. -/
structure LocalDate where
  year : Nat
  month : Nat
  day : Nat
  hour : Nat
deriving DecidableEq, Repr

/-- Gregorian leap-year rule, as implemented by the JavaScript Date type. -/
def isLeapYear (y : Nat) : Bool := y % 4 == 0 && (y % 100 != 0 || y % 400 == 0)

/-- Number of days of a month (1-based) in a year. -/
def daysInMonth (y m : Nat) : Nat :=
  if m = 2 then (if isLeapYear y then 29 else 28)
  else if m = 4 ∨ m = 6 ∨ m = 9 ∨ m = 11 then 30
  else 31

/-- Calendar validity of a LocalDate. -/
def ValidDate (d : LocalDate) : Prop :=
  1 ≤ d.month ∧ d.month ≤ 12 ∧ 1 ≤ d.day ∧ d.day ≤ daysInMonth d.year d.month ∧ d.hour ≤ 23

instance (d : LocalDate) : Decidable (ValidDate d) := by
  unfold ValidDate; infer_instance

/-- Models `currentDate.setDate(currentDate.getDate() + 1)` on a valid date:
the calendar successor day, leaving the hour unchanged. -/
def nextDay (d : LocalDate) : LocalDate :=
  if d.day + 1 ≤ daysInMonth d.year d.month then ⟨d.year, d.month, d.day + 1, d.hour⟩
  else if d.month + 1 ≤ 12 then ⟨d.year, d.month + 1, 1, d.hour⟩
  else ⟨d.year + 1, 1, 1, d.hour⟩

/-- Models `currentDate.setMonth(currentDate.getMonth() + 1)` on the
day-one dates the gap-fill loop feeds it. -/
def nextMonth (d : LocalDate) : LocalDate :=
  if d.month + 1 ≤ 12 then ⟨d.year, d.month + 1, d.day, d.hour⟩
  else ⟨d.year + 1, 1, d.day, d.hour⟩

/-- Models `currentDate.setHours(currentDate.getHours() + 1)` on a valid
date: the next hour, rolling into the next day after hour 23. -/
def nextHour (d : LocalDate) : LocalDate :=
  if d.hour + 1 ≤ 23 then ⟨d.year, d.month, d.day, d.hour + 1⟩
  else
    let e := nextDay ⟨d.year, d.month, d.day, 0⟩
    ⟨e.year, e.month, e.day, 0⟩

/-! ## Aggregation keys (getAggregationKey) -/

/-- The three aggregation units accepted by the `--unit` option. -/
inductive TUnit
  | day
  | month
  | hour
deriving DecidableEq, Repr

/-- Embeds getAggregationKey (src/app.ts lines 155-164). -/
def getAggregationKey (date : LocalDate) (unit : TUnit) : String :=
  let yyyy := natToStr date.year
  let mm := pad2 date.month
  let dd := pad2 date.day
  let hh := pad2 date.hour
  match unit with
  | .month => yyyy ++ "-" ++ mm
  | .hour => yyyy ++ "-" ++ mm ++ "-" ++ dd ++ " " ++ hh ++ ":00"
  | .day => yyyy ++ "-" ++ mm ++ "-" ++ dd

/-- The per-unit increment applied by the gap-fill loop (src/app.ts
lines 620-628). -/
def stepDate : TUnit → LocalDate → LocalDate
  | .month => nextMonth
  | .hour => nextHour
  | .day => nextDay

/-! ## Pricing table and model-name normalization -/

/-- Pricing entry in USD per million tokens. -/
structure Pricing where
  input : ℚ
  output : ℚ
deriving DecidableEq, Repr

/-- Embeds PRICING_TABLE (src/app.ts lines 24-51) as an association list in
declaration order, which is the iteration order of Object.keys for these
non-index string keys. -/
def PRICING_TABLE : List (String × Pricing) :=
  [ ("gpt-5.2-codex", ⟨1.75, 14.00⟩),
    ("gpt-5.2", ⟨1.75, 14.00⟩),
    ("gpt-5.1-codex-max", ⟨1.25, 10.00⟩),
    ("gpt-5.1-codex", ⟨1.25, 10.00⟩),
    ("gpt-5.1", ⟨1.25, 10.00⟩),
    ("gpt-5.1-codex-mini", ⟨0.25, 2.00⟩),
    ("gpt-5", ⟨1.25, 10.00⟩),
    ("gpt-5-mini", ⟨0.25, 2.00⟩),
    ("gpt-4.1", ⟨2.00, 8.00⟩),
    ("claude-opus-4.5", ⟨5.00, 25.00⟩),
    ("claude-sonnet-4.5", ⟨1.00, 3.00⟩),
    ("claude-sonnet-4", ⟨1.00, 3.00⟩),
    ("claude-haiku-4.5", ⟨0.10, 0.50⟩),
    ("gemini-3-pro-preview", ⟨2.00, 12.00⟩),
    ("default", ⟨1.00, 3.00⟩) ]

/-- The default pricing entry, `PRICING_TABLE["default"]`. -/
def defaultPricing : Pricing := ⟨1.00, 3.00⟩

/-- Whitespace class of the regular expressions `\s` used by
normalizeModelName, restricted to the ASCII whitespace occurring in model
strings. -/
def isJsSpace (c : Char) : Bool :=
  c = ' ' || c = '\t' || c = '\n' || c = '\r' || c = '\x0b' || c = '\x0c'

/-- Models String.prototype.trim on the ASCII whitespace class. -/
def trimCL (l : List Char) : List Char :=
  ((l.dropWhile isJsSpace).reverse.dropWhile isJsSpace).reverse

/-- Replaces every maximal run of characters satisfying `p` by the single
character `rep`: models `replace(/X+/g, rep)`. The boolean argument records
whether the previous character was inside a run. -/
def replaceRunsGo (p : Char → Bool) (rep : Char) : List Char → Bool → List Char
  | [], _ => []
  | c :: t, inRun =>
    if p c then
      if inRun then replaceRunsGo p rep t true
      else rep :: replaceRunsGo p rep t true
    else c :: replaceRunsGo p rep t false

/-- Embeds normalizeModelName (src/app.ts lines 172-180): trim, lower-case,
whitespace runs to hyphens, underscores to hyphens, strip characters outside
`[a-z0-9.-]`, collapse hyphen runs. -/
def normalizeModelName (model : String) : String :=
  let s1 := trimCL model.data
  let s2 := s1.map Char.toLower
  let s3 := replaceRunsGo isJsSpace '-' s2 false
  let s4 := s3.map fun c => if c = '_' then '-' else c
  let s5 := s4.filter fun c =>
    ('a' ≤ c && c ≤ 'z') || ('0' ≤ c && c ≤ '9') || c = '.' || c = '-'
  let s6 := replaceRunsGo (fun c => c = '-') '-' s5 false
  String.mk s6

/-- Embeds the pricing resolution of addSessionUsage (src/app.ts lines
446-456): the exact lookup `PRICING_TABLE[sessionModel] ||
PRICING_TABLE["default"]` initializes the entry, then the key scan in table
declaration order overrides it with the first key that is a substring of the
normalized model name. -/
def resolvePricing (sessionModel : String) : Pricing :=
  let base := (PRICING_TABLE.lookup sessionModel).getD defaultPricing
  let normalizedModel := normalizeModelName sessionModel
  match PRICING_TABLE.find? (fun kv => strIncludes normalizedModel kv.1) with
  | some kv => kv.2
  | none => base

/-! ## Association lists modelling Map objects and the aggStats record -/

/-- Map lookup (Map.get, or property read on the aggStats record). -/
def getA {α : Type} (m : List (String × α)) (k : String) : Option α := m.lookup k

/-- Map update (Map.set, or property assignment): replaces the value at an
existing key in place, otherwise appends, preserving insertion order. -/
def setA {α : Type} : List (String × α) → String → α → List (String × α)
  | [], k, v => [(k, v)]
  | (k2, v2) :: t, k, v => if k2 = k then (k, v) :: t else (k2, v2) :: setA t k v

/-- JavaScript truthiness of a possibly-undefined string field. -/
def truthyStr (o : Option String) : Bool :=
  match o with
  | none => false
  | some s => s ≠ ""

/-- JavaScript Date comparison `a < b`, at the hour resolution of the model. -/
def dateLt (a b : LocalDate) : Bool :=
  a.year < b.year ||
    (a.year = b.year &&
      (a.month < b.month ||
        (a.month = b.month && (a.day < b.day || (a.day = b.day && a.hour < b.hour)))))

/-- Models the JavaScript Date constructor on the ISO UTC timestamps
occurring in the session-state logs (shape `YYYY-MM-DDTHH:MM:SS[...]`, host
timezone taken as UTC); any other shape yields none (an Invalid Date). -/
def parseIsoDate (s : String) : Option LocalDate :=
  match splitCL 'T' s.data with
  | [dpart, tpart] =>
    match splitCL '-' dpart with
    | [y, m, d] =>
      if y.length = 4 && m.length = 2 && d.length = 2 &&
          (y ++ m ++ d).all (fun c => '0' ≤ c && c ≤ '9') then
        let hh := tpart.take 2
        if hh.length = 2 && hh.all (fun c => '0' ≤ c && c ≤ '9') then
          let yv := parseNatCL y
          let mv := parseNatCL m
          let dv := parseNatCL d
          let hv := parseNatCL hh
          if 1 ≤ mv ∧ mv ≤ 12 ∧ 1 ≤ dv ∧ dv ≤ daysInMonth yv mv ∧ hv ≤ 23 then
            some ⟨yv, mv, dv, hv⟩
          else none
        else none
      else none
    | _ => none
  | _ => none

/-! ## Session-State Extractor (src/app.ts lines 473-559) -/

/-- Embeds estimateTokensFromText (src/app.ts lines 166-170): zero for a
falsy argument, otherwise the ceiling of the UTF-8 byte length divided
by four. -/
def estimateTokensFromText (text : Option String) : ℚ :=
  match text with
  | none => 0
  | some t => if t = "" then 0 else (((t.utf8ByteSize + 3) / 4 : Nat) : ℚ)

/-- Data carried by one parsed session-state event (the LogEvent interface,
src/app.ts lines 60-72). -/
structure LogEventData where
  startTime : Option String
  sessionId : Option String
  selectedMode : Option String
  selectedModel : Option String
  model : Option String
  postTruncationTokensInMessages : Option ℚ
  content : Option String
  transformedContent : Option String
deriving Repr

/-- One successfully parsed line of a session-state file. -/
structure LogEvent where
  type : String
  data : LogEventData
deriving Repr

/-- Default event data with every field absent. -/
def emptyEventData : LogEventData := ⟨none, none, none, none, none, none, none, none⟩

/-- Per-file accumulator of the session-state loop (src/app.ts
lines 480-485). The sessionDateObj field is none while no session.start was
seen (the JavaScript null), and some none when the stored Date is invalid. -/
structure SessionScanState where
  sessionDateObj : Option (Option LocalDate)
  sessionId : String
  inputTokensFromMessages : ℚ
  inputTokensFromTruncationSum : ℚ
  outputTokens : ℚ
  model : String

/-- Initial per-file state: the session id is inferred from the file name,
the model starts at the default sentinel. -/
def initSessionState (fileSessionId : String) : SessionScanState :=
  ⟨none, fileSessionId, 0, 0, 0, "default"⟩

/-- Embeds the per-event body of the session-state loop (src/app.ts
lines 487-532). The source tests the event type in a chain of independent
if blocks whose conditions compare against pairwise-distinct literals, so
at most one fires; the equivalent match keeps one arm per block. -/
def processSessionEvent (st : SessionScanState) (e : LogEvent) : SessionScanState :=
  match e.type with
  | "session.start" =>
    if truthyStr e.data.startTime then
      { st with
        sessionDateObj := some (parseIsoDate (e.data.startTime.getD "")),
        sessionId :=
          match e.data.sessionId with
          | some sid => if sid = "" then st.sessionId else sid
          | none => st.sessionId,
        model := hintOr e.data.selectedModel
          (hintOr e.data.selectedMode (hintOr e.data.model st.model)) }
    else st
  | "session.info" =>
    { st with
      model := hintOr e.data.selectedModel
        (hintOr e.data.selectedMode (hintOr e.data.model st.model)) }
  | "user.message" =>
    { st with
      inputTokensFromMessages := st.inputTokensFromMessages +
        estimateTokensFromText
          (some (hintOr e.data.transformedContent (hintOr e.data.content ""))) }
  | "session.truncation" =>
    { st with
      inputTokensFromTruncationSum := st.inputTokensFromTruncationSum +
        (e.data.postTruncationTokensInMessages.getD 0) }
  | "assistant.message" =>
    { st with
      outputTokens := st.outputTokens +
        estimateTokensFromText (some (hintOr e.data.content "")) }
  | "assistant.reasoning" =>
    { st with
      outputTokens := st.outputTokens +
        estimateTokensFromText (some (hintOr e.data.content "")) }
  | _ => st

/-- Runs the session-state loop over the parsed lines of one file. -/
def scanSessionFile (fileSessionId : String) (events : List LogEvent) : SessionScanState :=
  events.foldl processSessionEvent (initSessionState fileSessionId)

/-- Embeds the combination of the two input-token estimates (src/app.ts
lines 534-537): the truncation sum when positive, the message heuristic
otherwise. -/
def sessionInputTokensOf (st : SessionScanState) : ℚ :=
  if 0 < st.inputTokensFromTruncationSum then st.inputTokensFromTruncationSum
  else st.inputTokensFromMessages

/-- Per-session usage estimate from the session-state files (the
SessionUsage interface, src/app.ts lines 74-79). -/
structure SessionUsage where
  date : LocalDate
  inputTokens : ℚ
  outputTokens : ℚ
  model : String

/-- Embeds the cross-file accumulation into sessionStateUsage (src/app.ts
lines 539-558): sum tokens, keep the earliest valid date, keep the first
non-default model. -/
def mergeSessionFile (acc : List (String × SessionUsage)) (st : SessionScanState) :
    List (String × SessionUsage) :=
  match st.sessionDateObj with
  | some (some d) =>
    match getA acc st.sessionId with
    | some ex =>
      setA acc st.sessionId
        { inputTokens := ex.inputTokens + sessionInputTokensOf st,
          outputTokens := ex.outputTokens + st.outputTokens,
          model := if ex.model = "default" ∧ st.model ≠ "default" then st.model else ex.model,
          date := if dateLt d ex.date then d else ex.date }
    | none => acc ++ [(st.sessionId, ⟨d, sessionInputTokensOf st, st.outputTokens, st.model⟩)]
  | _ => acc

/-- Runs the session-state extractor over a list of files, each given as the
file-name-derived session id (inferSessionIdFromSessionFile) together with
its successfully parsed lines. -/
def analyzeSessionStateFiles (files : List (String × List LogEvent)) :
    List (String × SessionUsage) :=
  files.foldl (fun acc f => mergeSessionFile acc (scanSessionFile f.1 f.2)) []

/-! ## Usage-Log Extractor (src/app.ts lines 268-399) -/

/-- A JSON value, as produced by JSON.parse; numbers are modelled as
rationals. -/
inductive Json where
  | null : Json
  | bool (b : Bool) : Json
  | num (q : ℚ) : Json
  | str (s : String) : Json
  | arr (elems : List Json) : Json
  | obj (fields : List (String × Json)) : Json

/-- Property read on a JSON value; on an object the last occurrence of a
duplicated key wins, as after JSON.parse. -/
def jsonGet (j : Json) (key : String) : Option Json :=
  match j with
  | .obj fields => fields.reverse.lookup key
  | _ => none

/-- The ParsedUsageRecord interface (src/app.ts lines 88-94). -/
structure ParsedUsageRecord where
  promptTokens : ℚ
  completionTokens : ℚ
  responseId : Option String
  sessionId : Option String
  model : Option String

/-- Embeds extractUsageFromResponsePayload (src/app.ts lines 268-292). -/
def extractUsageFromResponsePayload (payload : Json) : Option ParsedUsageRecord :=
  match payload with
  | .obj _ =>
    match jsonGet payload "usage" with
    | some (Json.obj usageFields) =>
      match jsonGet (Json.obj usageFields) "prompt_tokens",
          jsonGet (Json.obj usageFields) "completion_tokens" with
      | some (.num promptTokens), some (.num completionTokens) =>
        let responseId :=
          match jsonGet payload "id" with
          | some (.str s) => some s
          | _ =>
            match jsonGet payload "responseId" with
            | some (.str s) => some s
            | _ => none
        let sessionIdValue :=
          match jsonGet payload "sessionId" with
          | none => jsonGet payload "session_id"
          | some .null => jsonGet payload "session_id"
          | some v => some v
        let sessionId :=
          match sessionIdValue with
          | some (.str s) => some s
          | _ => none
        let model :=
          match jsonGet payload "model" with
          | some (.str s) => some s
          | _ => none
        some ⟨promptTokens, completionTokens, responseId, sessionId, model⟩
      | _, _ => none
    | _ => none
  | _ => none

/-- The LogSessionUsage interface (src/app.ts lines 81-86). -/
structure LogSessionUsage where
  inputTokens : ℚ
  outputTokens : ℚ
  model : String
  timestamp : Option LocalDate

/-- One JSON buffer as finalized by the line state machine of
analyzeUsageLogFiles: the parsed payload together with the session context
and timestamp captured when the buffer was opened and the
file-name-derived session id of the file being read. -/
structure FinalizedBuffer where
  payload : Json
  contextSessionId : Option String
  contextTimestamp : Option LocalDate
  fileSessionId : Option String

/-- Run-wide accumulator of analyzeUsageLogFiles (src/app.ts
lines 295-296): usage per session and the dedup set. -/
structure UsageAcc where
  usageBySession : List (String × LogSessionUsage)
  seenUsageBySessionAndResponse : List String

/-- Session-id resolution of finalizeJsonBuffer (src/app.ts line 328):
the payload id, else the buffered context, else the file name. -/
def resolveUsageSessionId (r : ParsedUsageRecord) (b : FinalizedBuffer) : Option String :=
  jsOrOpt r.sessionId (jsOrOpt b.contextSessionId b.fileSessionId)

/-- Embeds the accumulation into usageBySession (src/app.ts
lines 339-356). -/
def accumulateUsage (m : List (String × LogSessionUsage)) (sessionId : String)
    (r : ParsedUsageRecord) (ts : Option LocalDate) : List (String × LogSessionUsage) :=
  match getA m sessionId with
  | some existing =>
    setA m sessionId
      { inputTokens := existing.inputTokens + r.promptTokens,
        outputTokens := existing.outputTokens + r.completionTokens,
        model :=
          if existing.model = "default" ∧ truthyStr r.model then r.model.getD ""
          else existing.model,
        timestamp :=
          match ts, existing.timestamp with
          | some t, none => some t
          | some t, some et => if dateLt t et then some t else some et
          | none, et => et }
  | none =>
    m ++ [(sessionId,
      { inputTokens := r.promptTokens, outputTokens := r.completionTokens,
        model := hintOr r.model "default", timestamp := ts })]

/-- Embeds finalizeJsonBuffer (src/app.ts lines 306-357) from the point
where the buffered text has been parsed into a JSON payload. -/
def finalizeJsonBuffer (acc : UsageAcc) (b : FinalizedBuffer) : UsageAcc :=
  match extractUsageFromResponsePayload b.payload with
  | none => acc
  | some usageRecord =>
    match resolveUsageSessionId usageRecord b with
    | none => acc
    | some sessionId =>
      if !isUuid sessionId then acc
      else
        match usageRecord.responseId with
        | some rid =>
          if rid = "" then
            { acc with
              usageBySession :=
                accumulateUsage acc.usageBySession sessionId usageRecord b.contextTimestamp }
          else
            if acc.seenUsageBySessionAndResponse.contains (sessionId ++ ":" ++ rid) then acc
            else
              { usageBySession :=
                  accumulateUsage acc.usageBySession sessionId usageRecord b.contextTimestamp,
                seenUsageBySessionAndResponse :=
                  acc.seenUsageBySessionAndResponse ++ [sessionId ++ ":" ++ rid] }
        | none =>
          { acc with
            usageBySession :=
              accumulateUsage acc.usageBySession sessionId usageRecord b.contextTimestamp }

/-- Runs the Usage-Log Extractor over the run-order sequence of finalized
JSON buffers of all files; the dedup set is shared across the whole run as
in the source. -/
def analyzeUsageLogBuffers (buffers : List FinalizedBuffer) : UsageAcc :=
  buffers.foldl finalizeJsonBuffer ⟨[], []⟩

/-! ## Reconciler and Aggregator (src/app.ts lines 434-471 and 561-592) -/

/-- One aggregation bucket (the DailyStats interface, src/app.ts
lines 53-58). -/
structure DailyStats where
  sessions : Nat
  input : ℚ
  output : ℚ
  cost : ℚ
deriving DecidableEq, Repr

/-- The zero bucket `{ sessions: 0, input: 0, output: 0, cost: 0 }`. -/
def zeroStats : DailyStats := ⟨0, 0, 0, 0⟩

/-- The run-wide accumulators of analyzeFiles (src/app.ts lines 434-438). -/
structure AnalyzeState where
  totalSessions : Nat
  totalInputTokens : ℚ
  totalOutputTokens : ℚ
  totalCost : ℚ
  aggStats : List (String × DailyStats)

/-- Initial accumulators: all totals zero, no buckets. -/
def initAnalyzeState : AnalyzeState := ⟨0, 0, 0, 0, []⟩

/-- Embeds addSessionUsage (src/app.ts lines 441-471): bump the totals,
price the session, and accumulate into its time bucket. -/
def addSessionUsage (unit : TUnit) (st : AnalyzeState) (sessionDateObj : LocalDate)
    (sessionInputTokens sessionOutputTokens : ℚ) (sessionModel : String) : AnalyzeState :=
  let pricing := resolvePricing sessionModel
  let sessionCost := sessionInputTokens / 1000000 * pricing.input +
    sessionOutputTokens / 1000000 * pricing.output
  let aggKey := getAggregationKey sessionDateObj unit
  let cur := (getA st.aggStats aggKey).getD zeroStats
  { totalSessions := st.totalSessions + 1,
    totalInputTokens := st.totalInputTokens + sessionInputTokens,
    totalOutputTokens := st.totalOutputTokens + sessionOutputTokens,
    totalCost := st.totalCost + sessionCost,
    aggStats := setA st.aggStats aggKey
      ⟨cur.sessions + 1, cur.input + sessionInputTokens,
        cur.output + sessionOutputTokens, cur.cost + sessionCost⟩ }

/-- Embeds the argument selection of the reconciliation loop (src/app.ts
lines 563-578): with an authoritative record the estimate keeps only its
date, the token counts are the authoritative ones and the model is
`usageFromLogs.model || usage.model`; without one the estimate is used
as-is. -/
def reconcileSession (usage : SessionUsage) (usageFromLogs : Option LogSessionUsage) :
    LocalDate × ℚ × ℚ × String :=
  match usageFromLogs with
  | some u => (usage.date, u.inputTokens, u.outputTokens, jsOrStr u.model usage.model)
  | none => (usage.date, usage.inputTokens, usage.outputTokens, usage.model)

/-- Embeds the two reconciliation loops of analyzeFiles (src/app.ts
lines 561-592): every session-state entry is added with reconcileSession,
then every authoritative record whose id was not consumed is added with its
own timestamp, or dropped when it has none. -/
def reconcileAll (unit : TUnit) (sessionStateUsage : List (String × SessionUsage))
    (usageFromLogsBySession : List (String × LogSessionUsage)) : AnalyzeState :=
  let afterState := sessionStateUsage.foldl
    (fun st entry =>
      let args := reconcileSession entry.2 (getA usageFromLogsBySession entry.1)
      addSessionUsage unit st args.1 args.2.1 args.2.2.1 args.2.2.2)
    initAnalyzeState
  let sessionIdsFromState := sessionStateUsage.map (·.1)
  usageFromLogsBySession.foldl
    (fun st entry =>
      if sessionIdsFromState.contains entry.1 then st
      else
        match entry.2.timestamp with
        | none => st
        | some ts =>
          addSessionUsage unit st ts entry.2.inputTokens entry.2.outputTokens entry.2.model)
    afterState

/-! ## Gap filling, sorting and the result limit (src/app.ts lines 594-662) -/

/-- Embeds parseKeyToDate (src/app.ts lines 601-615) on the key shapes
produced by getAggregationKey; other shapes yield an unspecified
placeholder date (the source would build an Invalid Date from them). -/
def parseKeyToDate (unit : TUnit) (key : String) : LocalDate :=
  match unit with
  | .month =>
    match splitCL '-' key.data with
    | [y, m] => ⟨parseNatCL y, parseNatCL m, 1, 0⟩
    | _ => ⟨0, 1, 1, 0⟩
  | .hour =>
    match splitCL ' ' key.data with
    | [dStr, tStr] =>
      match splitCL '-' dStr with
      | [y, m, d] =>
        match splitCL ':' tStr with
        | h :: _ => ⟨parseNatCL y, parseNatCL m, parseNatCL d, parseNatCL h⟩
        | _ => ⟨0, 1, 1, 0⟩
      | _ => ⟨0, 1, 1, 0⟩
    | _ => ⟨0, 1, 1, 0⟩
  | .day =>
    match splitCL '-' key.data with
    | [y, m, d] => ⟨parseNatCL y, parseNatCL m, parseNatCL d, 0⟩
    | _ => ⟨0, 1, 1, 0⟩

/-- Iteration budget of the gap-fill loop model. The source loop is a while
loop; within the key ranges covered by the validity hypotheses of the
theorems below it always stops strictly before this many iterations, so the
fuelled model agrees with it there. -/
def gapFillFuel : Nat := 100000000

/-- Embeds the gap-fill while loop (src/app.ts lines 617-638): step the
date, recompute the key, stop past maxKey, insert a zero bucket for any
missing key. -/
def gapFillLoop (unit : TUnit) (maxKey : String) :
    Nat → List (String × DailyStats) → LocalDate → String → List (String × DailyStats)
  | 0, agg, _, _ => agg
  | fuel + 1, agg, currentDate, currentKey =>
    if strLt currentKey maxKey then
      if strLt maxKey (getAggregationKey (stepDate unit currentDate) unit) then agg
      else
        gapFillLoop unit maxKey fuel
          (match getA agg (getAggregationKey (stepDate unit currentDate) unit) with
            | some _ => agg
            | none =>
              agg ++ [(getAggregationKey (stepDate unit currentDate) unit, zeroStats)])
          (stepDate unit currentDate) (getAggregationKey (stepDate unit currentDate) unit)
    else agg

/-- String order as a relation, for the stable sort modelling the default
Array.sort comparator. -/
def keyLe (a b : String) : Prop := strLe a b = true

instance : DecidableRel keyLe := fun a b => by unfold keyLe; infer_instance

/-- Embeds the gap-fill block (src/app.ts lines 594-639): sort the bucket
keys, start from the smallest and walk unit steps to the largest. The
stable Array.sort of the source is modelled by a stable sort under the same
order. -/
def gapFill (unit : TUnit) (agg : List (String × DailyStats)) : List (String × DailyStats) :=
  let keys := List.insertionSort keyLe (agg.map (·.1))
  match keys with
  | [] => agg
  | minKey :: rest =>
    let maxKey := (minKey :: rest).getLastD minKey
    gapFillLoop unit maxKey gapFillFuel agg (parseKeyToDate unit minKey) minKey

/-- Cost of a bucket key, as read by the rank comparator. -/
def costOf (agg : List (String × DailyStats)) (k : String) : ℚ :=
  ((getA agg k).getD zeroStats).cost

/-- Embeds the final key ordering (src/app.ts lines 641-646): rank mode
sorts by descending cost, otherwise keys are sorted and reversed. -/
def sortKeysForReport (rank : Bool) (agg : List (String × DailyStats)) : List String :=
  let keys := agg.map (·.1)
  if rank then List.insertionSort (fun a b => costOf agg b ≤ costOf agg a) keys
  else (List.insertionSort keyLe keys).reverse

/-- Output contract of the core: run-wide totals plus the ordered bucket
rows handed to the report renderer. -/
structure Report where
  totalSessions : Nat
  totalInputTokens : ℚ
  totalOutputTokens : ℚ
  totalCost : ℚ
  rows : List (String × DailyStats)

/-- Embeds the tail of analyzeFiles (src/app.ts lines 561-662): reconcile,
gap-fill when not ranking and at least one bucket exists, sort, apply the
result limit (none models the Infinity default), and emit the rows. -/
def runReport (unit : TUnit) (rank : Bool) (lim : Option Nat)
    (sessionStateUsage : List (String × SessionUsage))
    (usageFromLogsBySession : List (String × LogSessionUsage)) : Report :=
  let st := reconcileAll unit sessionStateUsage usageFromLogsBySession
  let agg := if rank = false ∧ st.aggStats ≠ [] then gapFill unit st.aggStats else st.aggStats
  let sortedKeys := sortKeysForReport rank agg
  let finalKeys :=
    match lim with
    | none => sortedKeys
    | some n => sortedKeys.take n
  { totalSessions := st.totalSessions,
    totalInputTokens := st.totalInputTokens,
    totalOutputTokens := st.totalOutputTokens,
    totalCost := st.totalCost,
    rows := finalKeys.map fun k => (k, (getA agg k).getD zeroStats) }

/-! ## Derived definitions used by the claim statements -/

/-- A concrete UUID-shaped session id used by witness instances. -/
def uuidA : String := "0196a6c2-1111-7222-8333-444455556666"

/-- A concrete embedded response payload with model "gpt-5". -/
def c4Payload : Json :=
  Json.obj [("usage", Json.obj [("prompt_tokens", Json.num 10),
    ("completion_tokens", Json.num 20)]), ("model", Json.str "gpt-5")]

/-- A concrete finalized buffer carrying c4Payload under the session
context uuidA. -/
def c4Buffer : FinalizedBuffer := ⟨c4Payload, some uuidA, none, none⟩

/-- Sum of the postTruncationTokensInMessages values (a missing field
counting as zero) over the session.truncation records of a file. -/
def truncationSumOf (events : List LogEvent) : ℚ :=
  ((events.filter fun e => e.type = "session.truncation").map
    fun e => e.data.postTruncationTokensInMessages.getD 0).sum

/-- Sum of the byte-length heuristic over the user.message records of a
file. -/
def messageHeuristicOf (events : List LogEvent) : ℚ :=
  ((events.filter fun e => e.type = "user.message").map
    fun e => estimateTokensFromText
      (some (hintOr e.data.transformedContent (hintOr e.data.content "")))).sum

/-- A concrete embedded payload with a response id, for the dedup witness. -/
def c5Payload : Json :=
  Json.obj [("usage", Json.obj [("prompt_tokens", Json.num 7),
    ("completion_tokens", Json.num 3)]),
    ("id", Json.str "resp-9"), ("sessionId", Json.str uuidA)]

/-- The finalized buffer around c5Payload. -/
def c5Buffer : FinalizedBuffer := ⟨c5Payload, none, none, none⟩

/-- A concrete embedded payload without any response id. -/
def c5PayloadNoId : Json :=
  Json.obj [("usage", Json.obj [("prompt_tokens", Json.num 7),
    ("completion_tokens", Json.num 3)]), ("sessionId", Json.str uuidA)]

/-- The finalized buffer around c5PayloadNoId. -/
def c5BufferNoId : FinalizedBuffer := ⟨c5PayloadNoId, none, none, none⟩

/-- A second concrete UUID-shaped session id, distinct from uuidA. -/
def uuidB : String := "0196a6c2-9999-7222-8333-444455556666"

/-- A concrete payload with usage numbers but no resolvable session id. -/
def c8BadBuffer : FinalizedBuffer :=
  ⟨Json.obj [("usage", Json.obj [("prompt_tokens", Json.num 4),
    ("completion_tokens", Json.num 6)])], none, none, none⟩

/-- Invariant maintained by the gap-fill loop dates for each unit. -/
def StepInv : TUnit → LocalDate → Prop
  | .day, d => ValidDate d
  | .month, d => ValidDate d ∧ d.day = 1
  | .hour, d => ValidDate d

/-- Projection of a date to the fields its aggregation key records; the
date built by parseKeyToDate from that key. -/
def projDate : TUnit → LocalDate → LocalDate
  | .day, d => ⟨d.year, d.month, d.day, 0⟩
  | .month, d => ⟨d.year, d.month, 1, 0⟩
  | .hour, d => ⟨d.year, d.month, d.day, d.hour⟩

/-! ## Helper lemmas on the association-list model -/

theorem getA_nil {α : Type} (k : String) : getA ([] : List (String × α)) k = none := rfl

theorem getA_cons {α : Type} (k2 : String) (v : α) (t : List (String × α)) (k : String) :
    getA ((k2, v) :: t) k = if k = k2 then some v else getA t k := by
  simp only [getA, List.lookup]
  rcases eq_or_ne k k2 with h | h
  · simp [h]
  · simp [h, beq_eq_false_iff_ne.2 h]

theorem getA_setA {α : Type} (m : List (String × α)) (k : String) (v : α) (k2 : String) :
    getA (setA m k v) k2 = if k2 = k then some v else getA m k2 := by
  induction m with
  | nil => simp [setA, getA_cons, getA_nil]
  | cons hd t ih =>
    obtain ⟨k3, v3⟩ := hd
    simp only [setA]
    rcases eq_or_ne k3 k with h | h
    · subst h
      rcases eq_or_ne k2 k3 with h2 | h2 <;> simp [getA_cons, h2]
    · rw [if_neg h]
      rcases eq_or_ne k2 k3 with h2 | h2
      · subst h2
        simp [getA_cons, h]
      · simp [getA_cons, h2, ih]

theorem getA_append {α : Type} (m1 m2 : List (String × α)) (k : String) :
    getA (m1 ++ m2) k = (getA m1 k).or (getA m2 k) := by
  simp [getA, List.lookup_append]

theorem getA_mem {α : Type} :
    ∀ {m : List (String × α)} {k : String} {v : α}, getA m k = some v → (k, v) ∈ m := by
  intro m
  induction m with
  | nil => intro k v h; simp [getA, List.lookup] at h
  | cons hd t ih =>
    intro k v h
    obtain ⟨k2, v2⟩ := hd
    rw [getA_cons] at h
    rcases eq_or_ne k k2 with h2 | h2
    · simp [h2] at h
      simp [h2, h]
    · simp [h2] at h
      exact List.mem_cons_of_mem _ (ih h)

/-! ## Claim C1: reconciliation precedence -/

/-- C1: for a session id with both a session-state estimate and an
authoritative usage record, the reconciled token counts are exactly the
authoritative counts (never summed with the estimate), and without an
authoritative record they are the estimate counts as-is; in particular an
estimate of (500, 200) with an authoritative record of (120, 80) reconciles
to exactly (120, 80). -/
theorem c1_reconciliation_precedence :
    (∀ (unit : TUnit) (rank : Bool) (lim : Option Nat) (sid : String)
        (est : SessionUsage) (auth : LogSessionUsage),
      (runReport unit rank lim [(sid, est)] [(sid, auth)]).totalInputTokens = auth.inputTokens ∧
      (runReport unit rank lim [(sid, est)] [(sid, auth)]).totalOutputTokens = auth.outputTokens ∧
      (runReport unit rank lim [(sid, est)] []).totalInputTokens = est.inputTokens ∧
      (runReport unit rank lim [(sid, est)] []).totalOutputTokens = est.outputTokens) ∧
    (∀ (d : LocalDate) (m1 m2 : String) (ts : Option LocalDate),
      (reconcileSession ⟨d, 500, 200, m1⟩ (some ⟨120, 80, m2, ts⟩)).2.1 = 120 ∧
      (reconcileSession ⟨d, 500, 200, m1⟩ (some ⟨120, 80, m2, ts⟩)).2.2.1 = 80 ∧
      (reconcileSession ⟨d, 500, 200, m1⟩ (some ⟨120, 80, m2, ts⟩)).2.1 ≠ 500 + 120) := by
  constructor
  · intro unit rank lim sid est auth
    refine ⟨?_, ?_, ?_, ?_⟩ <;>
      simp [runReport, reconcileAll, reconcileSession, addSessionUsage, initAnalyzeState,
        getA_cons, getA_nil]
  · intro d m1 m2 ts
    refine ⟨rfl, rfl, ?_⟩
    norm_num [reconcileSession]

/-! ## Claim C9: the result limit truncates only the sorted rows -/

/-- C9: applying a result limit truncates only the final sorted row list;
all four run-wide totals are identical with and without the limit. -/
theorem c9_limit_frame :
    ∀ (unit : TUnit) (rank : Bool) (n : Nat)
      (s : List (String × SessionUsage)) (f : List (String × LogSessionUsage)),
      (runReport unit rank (some n) s f).totalSessions =
          (runReport unit rank none s f).totalSessions ∧
      (runReport unit rank (some n) s f).totalInputTokens =
          (runReport unit rank none s f).totalInputTokens ∧
      (runReport unit rank (some n) s f).totalOutputTokens =
          (runReport unit rank none s f).totalOutputTokens ∧
      (runReport unit rank (some n) s f).totalCost =
          (runReport unit rank none s f).totalCost ∧
      (runReport unit rank (some n) s f).rows =
          ((runReport unit rank none s f).rows).take n := by
  intro unit rank n s f
  refine ⟨rfl, rfl, rfl, rfl, ?_⟩
  simp [runReport, List.map_take]

/-! ## Claim C3: pricing resolution order -/

/-- C3 counterexample: the normalized model string "gpt-5.1-codex-mini" is
an exact pricing-table key with entry (0.25, 2.00), yet the code resolves
it to the earlier substring key gpt-5.1-codex with entry (1.25, 10.00), so
an exact match does not take precedence over the substring scan. -/
theorem c3_exact_match_counterexample :
    normalizeModelName "gpt-5.1-codex-mini" = "gpt-5.1-codex-mini" ∧
    getA PRICING_TABLE "gpt-5.1-codex-mini" = some ⟨0.25, 2.00⟩ ∧
    resolvePricing "gpt-5.1-codex-mini" = ⟨1.25, 10.00⟩ ∧
    resolvePricing "gpt-5.1-codex-mini" ≠ ⟨0.25, 2.00⟩ := by
  refine ⟨by decide, rfl, rfl, ?_⟩
  intro h
  rw [show resolvePricing "gpt-5.1-codex-mini" = ⟨1.25, 10.00⟩ from rfl] at h
  have h2 := congrArg Pricing.input h
  norm_num at h2

/-- C3 amended: the pricing entry is the first table key in declaration
order that is a substring of the normalized model string, and only when no
key is a substring the default entry (an exact table key always matches
itself in the substring scan, so the exact-lookup initializer never
survives); "gpt-5.1-codex-preview" resolves to the gpt-5.1-codex entry, and
the session cost adds inputTokens/1e6 times the input rate plus
outputTokens/1e6 times the output rate. -/
theorem c3_pricing_resolution :
    (∀ model : String,
      resolvePricing model =
        match PRICING_TABLE.find? (fun kv => strIncludes (normalizeModelName model) kv.1) with
        | some kv => kv.2
        | none => defaultPricing) ∧
    PRICING_TABLE.find?
        (fun kv => strIncludes (normalizeModelName "gpt-5.1-codex-preview") kv.1) =
      some ("gpt-5.1-codex", ⟨1.25, 10.00⟩) ∧
    resolvePricing "gpt-5.1-codex-preview" = ⟨1.25, 10.00⟩ ∧
    (∀ (unit : TUnit) (st : AnalyzeState) (d : LocalDate) (i o : ℚ) (model : String),
      (addSessionUsage unit st d i o model).totalCost =
        st.totalCost + (i / 1000000 * (resolvePricing model).input +
          o / 1000000 * (resolvePricing model).output)) := by
  refine ⟨?_, rfl, rfl, fun _ _ _ _ _ _ => rfl⟩
  intro model
  simp only [resolvePricing]
  cases hf : List.find? (fun kv => strIncludes (normalizeModelName model) kv.1) PRICING_TABLE with
  | some kv => rfl
  | none =>
    simp only
    cases hl : List.lookup model PRICING_TABLE with
    | none => rfl
    | some p =>
      exfalso
      have hmem : (model, p) ∈ PRICING_TABLE := getA_mem hl
      have hall := List.find?_eq_none.mp hf (model, p) hmem
      have hx : ¬ strIncludes (normalizeModelName model) model = true := by
        simpa using hall
      simp only [PRICING_TABLE, List.mem_cons, List.not_mem_nil, or_false,
        Prod.mk.injEq] at hmem
      rcases hmem with ⟨rfl, -⟩ | ⟨rfl, -⟩ | ⟨rfl, -⟩ | ⟨rfl, -⟩ | ⟨rfl, -⟩ | ⟨rfl, -⟩ |
        ⟨rfl, -⟩ | ⟨rfl, -⟩ | ⟨rfl, -⟩ | ⟨rfl, -⟩ | ⟨rfl, -⟩ | ⟨rfl, -⟩ | ⟨rfl, -⟩ |
        ⟨rfl, -⟩ | ⟨rfl, -⟩ <;>
        exact hx (by decide)

/-! ## Claim C4: reconciled model choice -/

/-- C4 counterexample: an estimate whose model is the non-default
"claude-sonnet-4" merged with an authoritative record of model "gpt-5"
reconciles to "gpt-5": the estimate model is not kept even though it is not
the default sentinel. -/
theorem c4_model_counterexample :
    (reconcileSession ⟨⟨2025, 1, 1, 0⟩, 500, 200, "claude-sonnet-4"⟩
        (some ⟨120, 80, "gpt-5", none⟩)).2.2.2 = "gpt-5" ∧
    ("gpt-5" : String) ≠ "claude-sonnet-4" := ⟨rfl, by decide⟩

/-- The fallback-model combination of accumulateUsage never yields the
empty string. -/
theorem hintOr_default_ne_empty (o : Option String) : hintOr o "default" ≠ "" := by
  cases o with
  | none => simp [hintOr]
  | some s =>
    simp only [hintOr]
    split <;> simp_all

/-- Model strings stored by accumulateUsage are never empty. -/
theorem accumulateUsage_model_nonempty {m : List (String × LogSessionUsage)}
    (hm : ∀ sid e, getA m sid = some e → e.model ≠ "")
    (s : String) (r : ParsedUsageRecord) (ts : Option LocalDate) :
    ∀ sid e, getA (accumulateUsage m s r ts) sid = some e → e.model ≠ "" := by
  intro sid e he
  unfold accumulateUsage at he
  cases hg : getA m s with
  | some existing =>
    rw [hg] at he
    rw [getA_setA] at he
    rcases eq_or_ne sid s with h | h
    · rw [if_pos h] at he
      obtain rfl := Option.some.inj he
      simp only
      split
      · next hcond =>
        obtain ⟨-, htr⟩ := hcond
        cases hrm : r.model with
        | none => rw [hrm] at htr; simp [truthyStr] at htr
        | some str =>
          rw [hrm] at htr
          simp only [truthyStr, decide_eq_true_eq] at htr
          simpa [hrm] using htr
      · exact hm s existing hg
    · rw [if_neg h] at he
      exact hm sid e he
  | none =>
    rw [hg] at he
    rw [getA_append] at he
    cases hg2 : getA m sid with
    | some e2 =>
      rw [hg2] at he
      obtain rfl := Option.some.inj he
      exact hm sid _ hg2
    | none =>
      rw [hg2] at he
      simp only [Option.or] at he
      rw [getA_cons] at he
      rcases eq_or_ne sid s with h | h
      · rw [if_pos h] at he
        obtain rfl := Option.some.inj he
        exact hintOr_default_ne_empty r.model
      · rw [if_neg h, getA_nil] at he
        exact absurd he (by simp)

/-- Usage accumulated by the Usage-Log Extractor never carries an empty
model string. -/
theorem analyzeUsageLogBuffers_model_nonempty (buffers : List FinalizedBuffer) :
    ∀ sid e, getA (analyzeUsageLogBuffers buffers).usageBySession sid = some e →
      e.model ≠ "" := by
  have main : ∀ (bs : List FinalizedBuffer) (acc : UsageAcc),
      (∀ sid e, getA acc.usageBySession sid = some e → e.model ≠ "") →
      ∀ sid e, getA (bs.foldl finalizeJsonBuffer acc).usageBySession sid = some e →
        e.model ≠ "" := by
    intro bs
    induction bs with
    | nil => intro acc hacc; exact hacc
    | cons b t ih =>
      intro acc hacc
      refine ih (finalizeJsonBuffer acc b) ?_
      intro sid e he
      unfold finalizeJsonBuffer at he
      split at he
      · exact hacc sid e he
      · next r hx =>
        split at he
        · exact hacc sid e he
        · next s hs =>
          split at he
          · exact hacc sid e he
          · split at he
            · next rid hrid =>
              split at he
              · exact accumulateUsage_model_nonempty hacc s r b.contextTimestamp sid e he
              · split at he
                · exact hacc sid e he
                · exact accumulateUsage_model_nonempty hacc s r b.contextTimestamp sid e he
            · exact accumulateUsage_model_nonempty hacc s r b.contextTimestamp sid e he
  intro sid e
  exact main buffers ⟨[], []⟩ (by intro sid2 e2 h; rw [getA_nil] at h; cases h) sid e

/-- C4 amended: when a session id has both an estimate and an
authoritative record, the reconciled model is always the model string
accumulated by the Usage-Log Extractor whenever that string is non-empty,
and that accumulated string is never empty (it is the sentinel "default"
when the logs supplied no model), so the estimate model is never kept in
the merged case. -/
theorem c4_reconciler_model :
    (∀ (usage : SessionUsage) (u : LogSessionUsage), u.model ≠ "" →
      (reconcileSession usage (some u)).2.2.2 = u.model) ∧
    (∀ (buffers : List FinalizedBuffer) (sid : String) (e : LogSessionUsage),
      getA (analyzeUsageLogBuffers buffers).usageBySession sid = some e →
        e.model ≠ "") :=
  ⟨fun _ u h => by simp [reconcileSession, jsOrStr, h],
    fun buffers sid e he => analyzeUsageLogBuffers_model_nonempty buffers sid e he⟩




/-- C4 witness: the amended statement evaluated at a concrete estimate with
model "claude-sonnet-4" and authoritative model "gpt-5", and at a concrete
one-buffer run of the Usage-Log Extractor. -/
theorem c4_reconciler_model_witness :
    (reconcileSession ⟨⟨2025, 6, 1, 10⟩, 500, 200, "claude-sonnet-4"⟩
        (some ⟨120, 80, "gpt-5", none⟩)).2.2.2 = "gpt-5" ∧
    (⟨10, 20, "gpt-5", none⟩ : LogSessionUsage).model ≠ "" :=
  ⟨c4_reconciler_model.1 ⟨⟨2025, 6, 1, 10⟩, 500, 200, "claude-sonnet-4"⟩
      ⟨120, 80, "gpt-5", none⟩ (by decide),
    c4_reconciler_model.2 [c4Buffer] uuidA ⟨10, 20, "gpt-5", none⟩ rfl⟩

/-! ## Claim C7: session.info model hints -/

/-- C7 counterexample: a file whose session.start already set the
non-default model "gpt-5" still has it overwritten by a later session.info
record carrying "claude-sonnet-4.5". -/
theorem c7_session_info_counterexample :
    (scanSessionFile "f1" [⟨"session.start",
        { emptyEventData with startTime := some "2025-06-01T10:00:00Z",
                              selectedModel := some "gpt-5" }⟩]).model = "gpt-5" ∧
    (scanSessionFile "f1" [⟨"session.start",
        { emptyEventData with startTime := some "2025-06-01T10:00:00Z",
                              selectedModel := some "gpt-5" }⟩,
      ⟨"session.info",
        { emptyEventData with selectedModel := some "claude-sonnet-4.5" }⟩]).model =
      "claude-sonnet-4.5" ∧
    ("claude-sonnet-4.5" : String) ≠ "gpt-5" :=
  ⟨by decide, by decide, by decide⟩

/-- C7 amended: a session.info record always overwrites the current model
whenever it carries a truthy hint, regardless of whether the current model
is still the default sentinel; the current model is kept only when the
record carries no hint at all. -/
theorem c7_session_info_model :
    (∀ (st : SessionScanState) (d : LogEventData) (m : String), m ≠ "" →
      d.selectedModel = some m →
      (processSessionEvent st ⟨"session.info", d⟩).model = m) ∧
    (∀ (st : SessionScanState) (d : LogEventData),
      d.selectedModel = none → d.selectedMode = none → d.model = none →
      (processSessionEvent st ⟨"session.info", d⟩).model = st.model) := by
  constructor
  · intro st d m hm hsel
    simp [processSessionEvent, hintOr, hsel, hm]
  · intro st d h1 h2 h3
    simp [processSessionEvent, hintOr, h1, h2, h3]

/-- C7 witness: the amended statement evaluated at a state whose model is
already the non-default "gpt-5". -/
theorem c7_session_info_model_witness :
    (processSessionEvent ⟨none, "f1", 0, 0, 0, "gpt-5"⟩
        ⟨"session.info",
          { emptyEventData with selectedModel := some "claude-sonnet-4.5" }⟩).model =
      "claude-sonnet-4.5" ∧
    (processSessionEvent ⟨none, "f1", 0, 0, 0, "gpt-5"⟩
        ⟨"session.info", emptyEventData⟩).model = "gpt-5" :=
  ⟨c7_session_info_model.1 ⟨none, "f1", 0, 0, 0, "gpt-5"⟩
      { emptyEventData with selectedModel := some "claude-sonnet-4.5" }
      "claude-sonnet-4.5" (by decide) rfl,
    c7_session_info_model.2 ⟨none, "f1", 0, 0, 0, "gpt-5"⟩ emptyEventData rfl rfl rfl⟩

/-! ## Claim C2: truncation records and the input-token estimate -/



/-- One event changes the truncation accumulator exactly by the value its
session.truncation record carries. -/
theorem processSessionEvent_truncSum (st : SessionScanState) (e : LogEvent) :
    (processSessionEvent st e).inputTokensFromTruncationSum =
      st.inputTokensFromTruncationSum +
        (if e.type = "session.truncation" then e.data.postTruncationTokensInMessages.getD 0
          else 0) := by
  unfold processSessionEvent
  split <;> (try split) <;> simp_all

/-- One event changes the message-heuristic accumulator exactly by the
estimate of its user.message content. -/
theorem processSessionEvent_messages (st : SessionScanState) (e : LogEvent) :
    (processSessionEvent st e).inputTokensFromMessages =
      st.inputTokensFromMessages +
        (if e.type = "user.message" then
          estimateTokensFromText
            (some (hintOr e.data.transformedContent (hintOr e.data.content "")))
          else 0) := by
  unfold processSessionEvent
  split <;> (try split) <;> simp_all

/-- The truncation accumulator of a whole file is the sum of its
truncation-record values. -/
theorem foldl_truncSum (events : List LogEvent) :
    ∀ st : SessionScanState,
      (events.foldl processSessionEvent st).inputTokensFromTruncationSum =
        st.inputTokensFromTruncationSum + truncationSumOf events := by
  induction events with
  | nil => intro st; simp [truncationSumOf]
  | cons e t ih =>
    intro st
    rw [List.foldl_cons, ih, processSessionEvent_truncSum]
    simp only [truncationSumOf, List.filter_cons]
    split <;> simp_all <;> ring

/-- The message-heuristic accumulator of a whole file is the sum of its
user-message estimates. -/
theorem foldl_messages (events : List LogEvent) :
    ∀ st : SessionScanState,
      (events.foldl processSessionEvent st).inputTokensFromMessages =
        st.inputTokensFromMessages + messageHeuristicOf events := by
  induction events with
  | nil => intro st; simp [messageHeuristicOf]
  | cons e t ih =>
    intro st
    rw [List.foldl_cons, ih, processSessionEvent_messages]
    simp only [messageHeuristicOf, List.filter_cons]
    split <;> simp_all <;> ring

/-- C2 counterexample: a file with two truncation records carrying 100 and
60 yields an input estimate of 160 (their sum), not 100 (their maximum). -/
theorem c2_truncation_counterexample :
    sessionInputTokensOf (scanSessionFile "f1"
      [⟨"session.truncation",
          { emptyEventData with postTruncationTokensInMessages := some 100 }⟩,
        ⟨"session.truncation",
          { emptyEventData with postTruncationTokensInMessages := some 60 }⟩]) = 160 ∧
    sessionInputTokensOf (scanSessionFile "f1"
      [⟨"session.truncation",
          { emptyEventData with postTruncationTokensInMessages := some 100 }⟩,
        ⟨"session.truncation",
          { emptyEventData with postTruncationTokensInMessages := some 60 }⟩]) ≠ 100 := by
  have h : sessionInputTokensOf (scanSessionFile "f1"
      [⟨"session.truncation",
          { emptyEventData with postTruncationTokensInMessages := some 100 }⟩,
        ⟨"session.truncation",
          { emptyEventData with postTruncationTokensInMessages := some 60 }⟩]) = 160 := by
    norm_num [scanSessionFile, processSessionEvent, initSessionState, sessionInputTokensOf,
      emptyEventData, List.foldl_cons, List.foldl_nil]
  refine ⟨h, ?_⟩
  rw [h]
  norm_num

/-- C2 amended: the input-token estimate of a session-state file equals the
SUM of the postTruncationTokensInMessages values (missing values counting
as zero) over its session.truncation records whenever that sum is positive,
and the message-byte heuristic otherwise — in particular the heuristic is
also used when truncation records exist but their values sum to zero. -/
theorem c2_truncation_override :
    ∀ (fileSessionId : String) (events : List LogEvent),
      (scanSessionFile fileSessionId events).inputTokensFromTruncationSum =
          truncationSumOf events ∧
      (scanSessionFile fileSessionId events).inputTokensFromMessages =
          messageHeuristicOf events ∧
      sessionInputTokensOf (scanSessionFile fileSessionId events) =
        (if 0 < truncationSumOf events then truncationSumOf events
          else messageHeuristicOf events) := by
  intro fileSessionId events
  have h1 : (scanSessionFile fileSessionId events).inputTokensFromTruncationSum =
      truncationSumOf events := by
    rw [scanSessionFile, foldl_truncSum]
    simp [initSessionState]
  have h2 : (scanSessionFile fileSessionId events).inputTokensFromMessages =
      messageHeuristicOf events := by
    rw [scanSessionFile, foldl_messages]
    simp [initSessionState]
  exact ⟨h1, h2, by rw [sessionInputTokensOf, h1, h2]⟩

/-! ## Claim C10: authoritative token values are not validated -/

/-- C10: any JSON numbers in usage.prompt_tokens and
usage.completion_tokens — including negative or fractional rationals — are
accepted by the extractor and land unchanged in the per-session
accumulator; no non-negativity or integrality check exists. -/
theorem c10_no_token_validation :
    ∀ p c : ℚ,
      extractUsageFromResponsePayload
          (Json.obj [("usage", Json.obj [("prompt_tokens", Json.num p),
            ("completion_tokens", Json.num c)]),
            ("sessionId", Json.str uuidA), ("id", Json.str "resp-1")]) =
        some ⟨p, c, some "resp-1", some uuidA, none⟩ ∧
      getA (analyzeUsageLogBuffers
          [⟨Json.obj [("usage", Json.obj [("prompt_tokens", Json.num p),
              ("completion_tokens", Json.num c)]),
              ("sessionId", Json.str uuidA), ("id", Json.str "resp-1")],
            none, none, none⟩]).usageBySession uuidA =
        some ⟨p, c, "default", none⟩ :=
  fun _ _ => ⟨rfl, rfl⟩

/-! ## Claim C5: dedup idempotence of the Usage-Log Extractor -/

/-- The run-wide dedup set only grows while a buffer is processed. -/
theorem finalizeJsonBuffer_seen_mono (acc : UsageAcc) (b : FinalizedBuffer) :
    ∀ k, k ∈ acc.seenUsageBySessionAndResponse →
      k ∈ (finalizeJsonBuffer acc b).seenUsageBySessionAndResponse := by
  intro k hk
  unfold finalizeJsonBuffer
  split
  · exact hk
  · split
    · exact hk
    · split
      · exact hk
      · split
        · split
          · exact hk
          · split
            · exact hk
            · exact List.mem_append_left _ hk
        · exact hk

/-- The run-wide dedup set only grows along a fold of buffers. -/
theorem foldl_seen_mono (l : List FinalizedBuffer) :
    ∀ (acc : UsageAcc) (k : String), k ∈ acc.seenUsageBySessionAndResponse →
      k ∈ (l.foldl finalizeJsonBuffer acc).seenUsageBySessionAndResponse := by
  induction l with
  | nil => intro acc k hk; exact hk
  | cons b t ih =>
    intro acc k hk
    exact ih (finalizeJsonBuffer acc b) k (finalizeJsonBuffer_seen_mono acc b k hk)

/-- A buffer whose dedup key is already in the run-wide set leaves the
whole accumulator untouched. -/
theorem finalizeJsonBuffer_skip (acc : UsageAcc) (b : FinalizedBuffer)
    (r : ParsedUsageRecord) (sid rid : String)
    (hx : extractUsageFromResponsePayload b.payload = some r)
    (hs : resolveUsageSessionId r b = some sid)
    (hu : isUuid sid = true)
    (hrid : r.responseId = some rid) (hne : rid ≠ "")
    (hmem : (sid ++ ":" ++ rid) ∈ acc.seenUsageBySessionAndResponse) :
    finalizeJsonBuffer acc b = acc := by
  unfold finalizeJsonBuffer
  simp only [hx, hs, hu, hrid, Bool.not_true, Bool.false_eq_true, if_false]
  rw [if_neg hne, if_pos (by simpa using hmem)]

/-- Processing a deduplicable buffer puts its dedup key into the run-wide
set. -/
theorem finalizeJsonBuffer_adds_key (acc : UsageAcc) (b : FinalizedBuffer)
    (r : ParsedUsageRecord) (sid rid : String)
    (hx : extractUsageFromResponsePayload b.payload = some r)
    (hs : resolveUsageSessionId r b = some sid)
    (hu : isUuid sid = true)
    (hrid : r.responseId = some rid) (hne : rid ≠ "") :
    (sid ++ ":" ++ rid) ∈ (finalizeJsonBuffer acc b).seenUsageBySessionAndResponse := by
  unfold finalizeJsonBuffer
  simp only [hx, hs, hu, hrid, Bool.not_true, Bool.false_eq_true, if_false]
  rw [if_neg hne]
  by_cases hcon : acc.seenUsageBySessionAndResponse.contains (sid ++ ":" ++ rid)
  · rw [if_pos hcon]
    simpa using hcon
  · rw [if_neg hcon]
    simp

/-- C5: a second occurrence of the same finalized payload carrying a truthy
response id — in the same file or any later file of the run — changes
nothing, so per-session token totals equal those of a single occurrence;
payloads lacking a response id are each counted, so two identical
response-id-free payloads accumulate exactly twice the tokens. -/
theorem c5_dedup_idempotence :
    (∀ (l1 l2 l3 : List FinalizedBuffer) (b : FinalizedBuffer)
        (r : ParsedUsageRecord) (sid rid : String),
      extractUsageFromResponsePayload b.payload = some r →
      resolveUsageSessionId r b = some sid →
      isUuid sid = true →
      r.responseId = some rid →
      rid ≠ "" →
      analyzeUsageLogBuffers (l1 ++ b :: (l2 ++ b :: l3)) =
        analyzeUsageLogBuffers (l1 ++ b :: (l2 ++ l3))) ∧
    (∀ (b : FinalizedBuffer) (r : ParsedUsageRecord) (sid : String),
      extractUsageFromResponsePayload b.payload = some r →
      resolveUsageSessionId r b = some sid →
      isUuid sid = true →
      r.responseId = none →
      getA (analyzeUsageLogBuffers [b, b]).usageBySession sid =
        some ⟨r.promptTokens + r.promptTokens, r.completionTokens + r.completionTokens,
          hintOr r.model "default", b.contextTimestamp⟩) := by
  constructor
  · intro l1 l2 l3 b r sid rid hx hs hu hrid hne
    unfold analyzeUsageLogBuffers
    rw [List.foldl_append, List.foldl_cons, List.foldl_append, List.foldl_cons,
      List.foldl_append, List.foldl_cons]
    have hkey1 : (sid ++ ":" ++ rid) ∈
        (finalizeJsonBuffer (l1.foldl finalizeJsonBuffer ⟨[], []⟩)
          b).seenUsageBySessionAndResponse :=
      finalizeJsonBuffer_adds_key _ b r sid rid hx hs hu hrid hne
    have hkey2 : (sid ++ ":" ++ rid) ∈
        (l2.foldl finalizeJsonBuffer
          (finalizeJsonBuffer (l1.foldl finalizeJsonBuffer ⟨[], []⟩)
            b)).seenUsageBySessionAndResponse :=
      foldl_seen_mono l2 _ _ hkey1
    rw [finalizeJsonBuffer_skip _ b r sid rid hx hs hu hrid hne hkey2,
      List.foldl_append]
  · intro b r sid hx hs hu hrid
    unfold analyzeUsageLogBuffers
    rw [List.foldl_cons, List.foldl_cons, List.foldl_nil]
    have step1 : finalizeJsonBuffer ⟨[], []⟩ b =
        ⟨[(sid, ⟨r.promptTokens, r.completionTokens, hintOr r.model "default",
          b.contextTimestamp⟩)], []⟩ := by
      unfold finalizeJsonBuffer
      simp only [hx, hs, hu, hrid, Bool.not_true, Bool.false_eq_true, if_false]
      unfold accumulateUsage
      rw [show getA ([] : List (String × LogSessionUsage)) sid = none from rfl]
      rfl
    rw [step1]
    unfold finalizeJsonBuffer
    simp only [hx, hs, hu, hrid, Bool.not_true, Bool.false_eq_true, if_false]
    unfold accumulateUsage
    rw [show getA [(sid, (⟨r.promptTokens, r.completionTokens, hintOr r.model "default",
      b.contextTimestamp⟩ : LogSessionUsage))] sid =
        some ⟨r.promptTokens, r.completionTokens, hintOr r.model "default",
          b.contextTimestamp⟩ by rw [getA_cons, if_pos rfl]]
    simp only [setA, if_pos rfl, getA_cons, ite_true]
    have hmodel : (if hintOr r.model "default" = "default" ∧ truthyStr r.model = true then
        r.model.getD "" else hintOr r.model "default") = hintOr r.model "default" := by
      cases hm : r.model with
      | none => simp [hintOr, truthyStr]
      | some s =>
        rcases eq_or_ne s "" with h | h
        · simp [hintOr, truthyStr, h]
        · simp only [hintOr, truthyStr, if_neg h]
          split
          · next hc => simp [hc.1]
          · rfl
    have hts : (match b.contextTimestamp, b.contextTimestamp with
        | some t, none => some t
        | some t, some et => if dateLt t et then some t else some et
        | none, et => et) = b.contextTimestamp := by
      cases hts2 : b.contextTimestamp with
      | none => rfl
      | some t => simp [dateLt]
    rw [hmodel, hts]





/-- C5 witness: the dedup statement evaluated at a concrete payload fed
twice, and the double-count statement at a concrete response-id-free
payload fed twice. -/
theorem c5_dedup_idempotence_witness :
    analyzeUsageLogBuffers [c5Buffer, c5Buffer] = analyzeUsageLogBuffers [c5Buffer] ∧
    getA (analyzeUsageLogBuffers [c5BufferNoId, c5BufferNoId]).usageBySession uuidA =
      some ⟨(7 : ℚ) + 7, (3 : ℚ) + 3, "default", none⟩ := by
  constructor
  · have h := c5_dedup_idempotence.1 [] [] [] c5Buffer
      ⟨7, 3, some "resp-9", some uuidA, none⟩ uuidA "resp-9" rfl rfl (by decide) rfl
      (by decide)
    simpa using h
  · have h := c5_dedup_idempotence.2 c5BufferNoId
      ⟨7, 3, none, some uuidA, none⟩ uuidA rfl rfl (by decide) rfl
    simpa [hintOr, c5BufferNoId] using h

/-! ## Claim C8: unplaceable records are dropped without side effects -/

/-- Lookup ignores an entry in the middle of an association list when the
looked-up key differs from its key. -/
theorem getA_middle {α : Type} (f1 f2 : List (String × α)) (x : String) (v : α)
    (k : String) (h : k ≠ x) :
    getA (f1 ++ (x, v) :: f2) k = getA (f1 ++ f2) k := by
  rw [getA_append, getA_append, getA_cons, if_neg h]

/-- The first reconciliation loop only reads the authoritative map at the
session ids of the session-state entries. -/
theorem reconcile_firstLoop_congr (unit : TUnit) (s : List (String × SessionUsage))
    (f g : List (String × LogSessionUsage))
    (h : ∀ entry ∈ s, getA f entry.1 = getA g entry.1) :
    s.foldl (fun st entry =>
      let args := reconcileSession entry.2 (getA f entry.1)
      addSessionUsage unit st args.1 args.2.1 args.2.2.1 args.2.2.2) initAnalyzeState =
    s.foldl (fun st entry =>
      let args := reconcileSession entry.2 (getA g entry.1)
      addSessionUsage unit st args.1 args.2.1 args.2.2.1 args.2.2.2) initAnalyzeState :=
  List.foldl_ext _ _ initAnalyzeState (fun _ entry hmem => by rw [h entry hmem])

/-- Dropping an authoritative entry that no session-state id matches and
that carries no timestamp does not change the reconciliation result. -/
theorem reconcileAll_drop_unplaceable (unit : TUnit)
    (s : List (String × SessionUsage)) (f1 f2 : List (String × LogSessionUsage))
    (sid : String) (u : LogSessionUsage)
    (ht : u.timestamp = none) (hnot : (s.map (·.1)).contains sid = false) :
    reconcileAll unit s (f1 ++ (sid, u) :: f2) = reconcileAll unit s (f1 ++ f2) := by
  unfold reconcileAll
  rw [reconcile_firstLoop_congr unit s (f1 ++ (sid, u) :: f2) (f1 ++ f2)
    (by
      intro entry hmem
      refine getA_middle f1 f2 sid u entry.1 ?_
      intro hEq
      have hin : entry.1 ∈ s.map (·.1) := List.mem_map_of_mem _ hmem
      rw [hEq] at hin
      simp [hin] at hnot)]
  rw [List.foldl_append, List.foldl_cons, List.foldl_append]
  simp [hnot, ht]

/-- C8: an embedded usage payload whose session id does not resolve to a
UUID is discarded with no effect at all on the extractor state, and an
authoritative record matching no session-state entry and carrying no
timestamp contributes to no bucket and to none of the run-wide totals. -/
theorem c8_unplaceable_records :
    (∀ (acc : UsageAcc) (b : FinalizedBuffer) (r : ParsedUsageRecord),
      extractUsageFromResponsePayload b.payload = some r →
      (resolveUsageSessionId r b = none ∨
        (∃ sid, resolveUsageSessionId r b = some sid ∧ isUuid sid = false)) →
      finalizeJsonBuffer acc b = acc) ∧
    (∀ (unit : TUnit) (rank : Bool) (lim : Option Nat)
        (s : List (String × SessionUsage))
        (f1 f2 : List (String × LogSessionUsage)) (sid : String) (u : LogSessionUsage),
      u.timestamp = none →
      (s.map (·.1)).contains sid = false →
      runReport unit rank lim s (f1 ++ (sid, u) :: f2) =
        runReport unit rank lim s (f1 ++ f2)) := by
  constructor
  · intro acc b r hx hbad
    unfold finalizeJsonBuffer
    rcases hbad with h | ⟨sid, hs, hfalse⟩
    · simp only [hx, h]
    · simp only [hx, hs, hfalse, Bool.not_false, if_true]
  · intro unit rank lim s f1 f2 sid u ht hnot
    unfold runReport
    rw [reconcileAll_drop_unplaceable unit s f1 f2 sid u ht hnot]



/-- C8 witness: the statement evaluated at a concrete unresolvable payload
and at a concrete timestamp-free authoritative entry foreign to the
session-state map. -/
theorem c8_unplaceable_records_witness :
    finalizeJsonBuffer ⟨[], []⟩ c8BadBuffer = ⟨[], []⟩ ∧
    runReport TUnit.day false none [(uuidB, ⟨⟨2025, 1, 1, 0⟩, 10, 10, "default"⟩)]
        ([] ++ (uuidA, ⟨5, 5, "default", none⟩) :: []) =
      runReport TUnit.day false none [(uuidB, ⟨⟨2025, 1, 1, 0⟩, 10, 10, "default"⟩)]
        ([] ++ []) :=
  ⟨c8_unplaceable_records.1 ⟨[], []⟩ c8BadBuffer ⟨4, 6, none, none, none⟩ rfl
      (Or.inl rfl),
    c8_unplaceable_records.2 TUnit.day false none
      [(uuidB, ⟨⟨2025, 1, 1, 0⟩, 10, 10, "default"⟩)] [] []
      uuidA ⟨5, 5, "default", none⟩ rfl (by decide)⟩

end Cpusage


namespace Cpusage

theorem charListLt_irrefl : ∀ l : List Char, charListLt l l = false := by
  intro l
  induction l with
  | nil => rfl
  | cons c t ih => simp [charListLt, ih]

theorem charListLt_trans : ∀ {l1 l2 l3 : List Char},
    charListLt l1 l2 = true → charListLt l2 l3 = true → charListLt l1 l3 = true := by
  intro l1
  induction l1 with
  | nil =>
    intro l2 l3 h12 h23
    cases l2 with
    | nil => exact absurd h12 (by simp [charListLt])
    | cons b bs =>
      cases l3 with
      | nil => exact absurd h23 (by simp [charListLt])
      | cons c cs => rfl
  | cons a as ih =>
    intro l2 l3 h12 h23
    cases l2 with
    | nil => exact absurd h12 (by simp [charListLt])
    | cons b bs =>
      cases l3 with
      | nil => exact absurd h23 (by simp [charListLt])
      | cons c cs =>
        simp only [charListLt] at h12 h23 ⊢
        rcases lt_trichotomy a b with hab | hab | hab
        · rcases lt_trichotomy b c with hbc | hbc | hbc
          · simp [lt_trans hab hbc]
          · subst hbc; simp [hab]
          · rw [if_pos hab] at h12
            rw [if_neg (lt_asymm hbc), if_pos hbc] at h23
            cases h23
        · subst hab
          rw [if_neg (lt_irrefl a), if_neg (lt_irrefl a)] at h12
          rcases lt_trichotomy a c with hac | hac | hac
          · simp [hac]
          · subst hac
            rw [if_neg (lt_irrefl a), if_neg (lt_irrefl a)] at h23 ⊢
            exact ih h12 h23
          · rw [if_neg (lt_asymm hac), if_pos hac] at h23
            cases h23
        · rw [if_neg (lt_asymm hab), if_pos hab] at h12
          cases h12

theorem charListLt_total : ∀ {l1 l2 : List Char},
    charListLt l1 l2 = false → l1 = l2 ∨ charListLt l2 l1 = true := by
  intro l1
  induction l1 with
  | nil =>
    intro l2 h
    cases l2 with
    | nil => exact Or.inl rfl
    | cons b bs => exact absurd h (by simp [charListLt])
  | cons a as ih =>
    intro l2 h
    cases l2 with
    | nil => exact Or.inr rfl
    | cons b bs =>
      simp only [charListLt] at h ⊢
      rcases lt_trichotomy a b with hab | hab | hab
      · rw [if_pos hab] at h; cases h
      · subst hab
        rw [if_neg (lt_irrefl a), if_neg (lt_irrefl a)] at h ⊢
        rcases ih h with h2 | h2
        · exact Or.inl (by rw [h2])
        · exact Or.inr h2
      · exact Or.inr (by rw [if_pos hab])

end Cpusage

namespace Cpusage

theorem digitChar_lt_iff (a b : Nat) (ha : a < 10) (hb : b < 10) :
    Nat.digitChar a < Nat.digitChar b ↔ a < b := by
  interval_cases a <;> interval_cases b <;> decide

theorem digitChar_inj_iff (a b : Nat) (ha : a < 10) (hb : b < 10) :
    Nat.digitChar a = Nat.digitChar b ↔ a = b := by
  interval_cases a <;> interval_cases b <;> decide

theorem charListLt_digit_cons (a b : Nat) (ha : a < 10) (hb : b < 10) (as bs : List Char) :
    charListLt (Nat.digitChar a :: as) (Nat.digitChar b :: bs) = true ↔
      (a < b ∨ (a = b ∧ charListLt as bs = true)) := by
  simp only [charListLt]
  rcases lt_trichotomy a b with h | h | h
  · rw [if_pos ((digitChar_lt_iff a b ha hb).mpr h)]
    simp [h]
  · subst h
    rw [if_neg (lt_irrefl _), if_neg (lt_irrefl _)]
    simp
  · rw [if_neg (by rw [digitChar_lt_iff a b ha hb]; omega),
      if_pos ((digitChar_lt_iff b a hb ha).mpr h)]
    simp
    omega

theorem natDigitsGo_two (f n : Nat) (h1 : 10 ≤ n) (h2 : n < 100) :
    natDigitsGo (f + 2) n = [Nat.digitChar (n / 10), Nat.digitChar (n % 10)] := by
  have e1 : ¬ n < 10 := by omega
  have e2 : n / 10 < 10 := by omega
  simp [natDigitsGo, if_neg e1, if_pos e2]

theorem natDigitsGo_four (f n : Nat) (h1 : 1000 ≤ n) (h2 : n ≤ 9999) :
    natDigitsGo (f + 4) n = [Nat.digitChar (n / 10 / 10 / 10),
      Nat.digitChar (n / 10 / 10 % 10), Nat.digitChar (n / 10 % 10),
      Nat.digitChar (n % 10)] := by
  have e1 : ¬ n < 10 := by omega
  have e2 : ¬ n / 10 < 10 := by omega
  have e3 : ¬ n / 10 / 10 < 10 := by omega
  have e4 : n / 10 / 10 / 10 < 10 := by omega
  simp [natDigitsGo, if_neg e1, if_neg e2, if_neg e3, if_pos e4]

theorem natToStr_eq_four (y : Nat) (b1 : 1000 ≤ y) (b2 : y ≤ 9999) :
    (natToStr y).data = [Nat.digitChar (y / 10 / 10 / 10),
      Nat.digitChar (y / 10 / 10 % 10), Nat.digitChar (y / 10 % 10),
      Nat.digitChar (y % 10)] := by
  show natDigitsGo (y + 1) y = _
  rw [show y + 1 = (y - 3) + 4 from by omega]
  exact natDigitsGo_four (y - 3) y b1 b2

theorem pad2_data (n : Nat) (h : n < 100) :
    (pad2 n).data = [Nat.digitChar (n / 10), Nat.digitChar (n % 10)] := by
  by_cases h10 : n < 10
  · have hs : (natToStr n).data = [Nat.digitChar n] := by
      show natDigitsGo (n + 1) n = _
      simp [natDigitsGo, if_pos h10]
    have hlen : (natToStr n).length < 2 := by
      simp [String.length, hs]
    rw [pad2]
    simp only [hlen, if_pos]
    rw [String.data_append, hs]
    rw [show n / 10 = 0 from by omega, show n % 10 = n from by omega]
    rfl
  · have hs : (natToStr n).data = [Nat.digitChar (n / 10), Nat.digitChar (n % 10)] := by
      show natDigitsGo (n + 1) n = _
      rw [show n + 1 = (n - 1) + 2 from by omega]
      exact natDigitsGo_two (n - 1) n (by omega) h
    have hlen : ¬ (natToStr n).length < 2 := by
      simp [String.length, hs]
    rw [pad2]
    simp only [hlen, if_neg, if_false]
    exact hs

theorem charListLt_append_iff (p1 : List Char) : ∀ (p2 : List Char) (s1 s2 : List Char),
    p1.length = p2.length →
    (charListLt (p1 ++ s1) (p2 ++ s2) = true ↔
      (charListLt p1 p2 = true ∨ (p1 = p2 ∧ charListLt s1 s2 = true))) := by
  induction p1 with
  | nil =>
    intro p2 s1 s2 hlen
    cases p2 with
    | nil => simp [charListLt]
    | cons b bs => simp at hlen
  | cons a as ih =>
    intro p2 s1 s2 hlen
    cases p2 with
    | nil => simp at hlen
    | cons b bs =>
      have hlen2 : as.length = bs.length := by simpa using hlen
      have lhs : charListLt ((a :: as) ++ s1) ((b :: bs) ++ s2) =
          if a < b then true else if b < a then false
            else charListLt (as ++ s1) (bs ++ s2) := rfl
      have rhs : charListLt (a :: as) (b :: bs) =
          if a < b then true else if b < a then false else charListLt as bs := rfl
      rw [lhs, rhs]
      rcases lt_trichotomy a b with h | h | h
      · simp only [if_pos h]
        simp
      · subst h
        simp only [if_neg (lt_irrefl a)]
        rw [ih bs s1 s2 hlen2]
        simp [List.cons.injEq]
      · simp only [if_neg (lt_asymm h), if_pos h]
        have hne : a ≠ b := ne_of_gt h
        simp [hne]

theorem charListLt_cons_same (c : Char) (l1 l2 : List Char) :
    charListLt (c :: l1) (c :: l2) = charListLt l1 l2 := by
  simp [charListLt, lt_irrefl]

theorem fourDigits_lt_iff (y1 y2 : Nat) (b1 : 1000 ≤ y1) (b2 : y1 ≤ 9999)
    (b3 : 1000 ≤ y2) (b4 : y2 ≤ 9999) :
    (charListLt (natToStr y1).data (natToStr y2).data = true ↔ y1 < y2) ∧
    ((natToStr y1).data = (natToStr y2).data ↔ y1 = y2) := by
  rw [natToStr_eq_four y1 b1 b2, natToStr_eq_four y2 b3 b4]
  constructor
  · rw [charListLt_digit_cons _ _ (by omega) (by omega),
      charListLt_digit_cons _ _ (by omega) (by omega),
      charListLt_digit_cons _ _ (by omega) (by omega),
      charListLt_digit_cons _ _ (by omega) (by omega)]
    simp only [charListLt, Bool.false_eq_true, and_false, or_false]
    constructor
    · intro h; omega
    · intro h; omega
  · constructor
    · intro h
      simp only [List.cons.injEq, and_true] at h
      obtain ⟨h3, h2, h1, h0⟩ := h
      rw [digitChar_inj_iff _ _ (by omega) (by omega)] at h3
      rw [digitChar_inj_iff _ _ (by omega) (by omega)] at h2
      rw [digitChar_inj_iff _ _ (by omega) (by omega)] at h1
      rw [digitChar_inj_iff _ _ (by omega) (by omega)] at h0
      omega
    · intro h; rw [h]

theorem twoDigits_iff (m1 m2 : Nat) (h1 : m1 < 100) (h2 : m2 < 100) :
    (charListLt (pad2 m1).data (pad2 m2).data = true ↔ m1 < m2) ∧
    ((pad2 m1).data = (pad2 m2).data ↔ m1 = m2) := by
  rw [pad2_data m1 h1, pad2_data m2 h2]
  constructor
  · rw [charListLt_digit_cons _ _ (by omega) (by omega),
      charListLt_digit_cons _ _ (by omega) (by omega)]
    simp only [charListLt, Bool.false_eq_true, and_false, or_false]
    constructor
    · intro h; omega
    · intro h; omega
  · constructor
    · intro h
      simp only [List.cons.injEq, and_true] at h
      obtain ⟨ha, hb⟩ := h
      rw [digitChar_inj_iff _ _ (by omega) (by omega)] at ha
      rw [digitChar_inj_iff _ _ (by omega) (by omega)] at hb
      omega
    · intro h; rw [h]

end Cpusage

namespace Cpusage

theorem daysInMonth_le (y m : Nat) : daysInMonth y m ≤ 31 := by
  unfold daysInMonth
  split_ifs <;> omega

theorem daysInMonth_pos (y m : Nat) : 1 ≤ daysInMonth y m := by
  unfold daysInMonth
  split_ifs <;> omega

theorem dayKey_data (d : LocalDate) :
    (getAggregationKey d .day).data =
      (natToStr d.year).data ++ '-' ::
        ((pad2 d.month).data ++ '-' :: (pad2 d.day).data) := by
  simp [getAggregationKey, String.data_append]

theorem monthKey_data (d : LocalDate) :
    (getAggregationKey d .month).data =
      (natToStr d.year).data ++ '-' :: (pad2 d.month).data := by
  simp [getAggregationKey, String.data_append]

theorem hourKey_data (d : LocalDate) :
    (getAggregationKey d .hour).data =
      (natToStr d.year).data ++ '-' ::
        ((pad2 d.month).data ++ '-' ::
          ((pad2 d.day).data ++ ' ' :: ((pad2 d.hour).data ++ [':', '0', '0']))) := by
  simp [getAggregationKey, String.data_append]

theorem dayKey_lt_iff (d1 d2 : LocalDate)
    (hy1 : 1000 ≤ d1.year) (hy2 : d1.year ≤ 9999)
    (hy3 : 1000 ≤ d2.year) (hy4 : d2.year ≤ 9999)
    (hm1 : d1.month < 100) (hm2 : d2.month < 100)
    (hd1 : d1.day < 100) (hd2 : d2.day < 100) :
    strLt (getAggregationKey d1 .day) (getAggregationKey d2 .day) = true ↔
      (d1.year < d2.year ∨ (d1.year = d2.year ∧
        (d1.month < d2.month ∨ (d1.month = d2.month ∧ d1.day < d2.day)))) := by
  have ylen : ((natToStr d1.year).data).length = ((natToStr d2.year).data).length := by
    rw [natToStr_eq_four _ hy1 hy2, natToStr_eq_four _ hy3 hy4]
    rfl
  have mlen : ((pad2 d1.month).data).length = ((pad2 d2.month).data).length := by
    rw [pad2_data _ hm1, pad2_data _ hm2]
    rfl
  simp only [strLt]
  rw [dayKey_data d1, dayKey_data d2]
  rw [charListLt_append_iff _ _ _ _ ylen]
  rw [(fourDigits_lt_iff d1.year d2.year hy1 hy2 hy3 hy4).1,
    (fourDigits_lt_iff d1.year d2.year hy1 hy2 hy3 hy4).2]
  rw [charListLt_cons_same]
  rw [charListLt_append_iff _ _ _ _ mlen]
  rw [(twoDigits_iff d1.month d2.month hm1 hm2).1,
    (twoDigits_iff d1.month d2.month hm1 hm2).2]
  rw [charListLt_cons_same]
  rw [(twoDigits_iff d1.day d2.day hd1 hd2).1]

theorem monthKey_lt_iff (d1 d2 : LocalDate)
    (hy1 : 1000 ≤ d1.year) (hy2 : d1.year ≤ 9999)
    (hy3 : 1000 ≤ d2.year) (hy4 : d2.year ≤ 9999)
    (hm1 : d1.month < 100) (hm2 : d2.month < 100) :
    strLt (getAggregationKey d1 .month) (getAggregationKey d2 .month) = true ↔
      (d1.year < d2.year ∨ (d1.year = d2.year ∧ d1.month < d2.month)) := by
  have ylen : ((natToStr d1.year).data).length = ((natToStr d2.year).data).length := by
    rw [natToStr_eq_four _ hy1 hy2, natToStr_eq_four _ hy3 hy4]
    rfl
  simp only [strLt]
  rw [monthKey_data d1, monthKey_data d2]
  rw [charListLt_append_iff _ _ _ _ ylen]
  rw [(fourDigits_lt_iff d1.year d2.year hy1 hy2 hy3 hy4).1,
    (fourDigits_lt_iff d1.year d2.year hy1 hy2 hy3 hy4).2]
  rw [charListLt_cons_same]
  rw [(twoDigits_iff d1.month d2.month hm1 hm2).1]

theorem hourKey_lt_iff (d1 d2 : LocalDate)
    (hy1 : 1000 ≤ d1.year) (hy2 : d1.year ≤ 9999)
    (hy3 : 1000 ≤ d2.year) (hy4 : d2.year ≤ 9999)
    (hm1 : d1.month < 100) (hm2 : d2.month < 100)
    (hd1 : d1.day < 100) (hd2 : d2.day < 100)
    (hh1 : d1.hour < 100) (hh2 : d2.hour < 100) :
    strLt (getAggregationKey d1 .hour) (getAggregationKey d2 .hour) = true ↔
      (d1.year < d2.year ∨ (d1.year = d2.year ∧
        (d1.month < d2.month ∨ (d1.month = d2.month ∧
          (d1.day < d2.day ∨ (d1.day = d2.day ∧ d1.hour < d2.hour)))))) := by
  have ylen : ((natToStr d1.year).data).length = ((natToStr d2.year).data).length := by
    rw [natToStr_eq_four _ hy1 hy2, natToStr_eq_four _ hy3 hy4]
    rfl
  have mlen : ((pad2 d1.month).data).length = ((pad2 d2.month).data).length := by
    rw [pad2_data _ hm1, pad2_data _ hm2]
    rfl
  have dlen : ((pad2 d1.day).data).length = ((pad2 d2.day).data).length := by
    rw [pad2_data _ hd1, pad2_data _ hd2]
    rfl
  have hlen : ((pad2 d1.hour).data).length = ((pad2 d2.hour).data).length := by
    rw [pad2_data _ hh1, pad2_data _ hh2]
    rfl
  simp only [strLt]
  rw [hourKey_data d1, hourKey_data d2]
  rw [charListLt_append_iff _ _ _ _ ylen]
  rw [(fourDigits_lt_iff d1.year d2.year hy1 hy2 hy3 hy4).1,
    (fourDigits_lt_iff d1.year d2.year hy1 hy2 hy3 hy4).2]
  rw [charListLt_cons_same]
  rw [charListLt_append_iff _ _ _ _ mlen]
  rw [(twoDigits_iff d1.month d2.month hm1 hm2).1,
    (twoDigits_iff d1.month d2.month hm1 hm2).2]
  rw [charListLt_cons_same]
  rw [charListLt_append_iff _ _ _ _ dlen]
  rw [(twoDigits_iff d1.day d2.day hd1 hd2).1,
    (twoDigits_iff d1.day d2.day hd1 hd2).2]
  rw [charListLt_cons_same]
  rw [charListLt_append_iff _ _ _ _ hlen]
  rw [(twoDigits_iff d1.hour d2.hour hh1 hh2).1,
    (twoDigits_iff d1.hour d2.hour hh1 hh2).2]
  rw [charListLt_irrefl]
  simp [Bool.false_eq_true]

end Cpusage

namespace Cpusage


theorem nextDay_valid (d : LocalDate) (h : ValidDate d) : ValidDate (nextDay d) := by
  obtain ⟨h1, h2, h3, h4, h5⟩ := h
  unfold nextDay
  split_ifs with ha hb <;> simp only [ValidDate]
  · exact ⟨h1, h2, by omega, ha, h5⟩
  · exact ⟨by omega, hb, le_refl 1, daysInMonth_pos _ _, h5⟩
  · exact ⟨by omega, by omega, le_refl 1, daysInMonth_pos _ _, h5⟩

theorem nextDay_year (d : LocalDate) :
    (nextDay d).year = d.year ∨ (nextDay d).year = d.year + 1 := by
  unfold nextDay
  split_ifs <;> simp

theorem nextMonth_year (d : LocalDate) :
    (nextMonth d).year = d.year ∨ (nextMonth d).year = d.year + 1 := by
  unfold nextMonth
  split_ifs <;> simp

theorem nextHour_year (d : LocalDate) :
    (nextHour d).year = d.year ∨ (nextHour d).year = d.year + 1 := by
  unfold nextHour
  split_ifs
  · exact Or.inl rfl
  · exact nextDay_year ⟨d.year, d.month, d.day, 0⟩

theorem stepDate_year_le (u : TUnit) (d : LocalDate) : d.year ≤ (stepDate u d).year := by
  cases u with
  | day => rcases nextDay_year d with h | h <;> simp [stepDate, h]
  | month => rcases nextMonth_year d with h | h <;> simp [stepDate, h]
  | hour => rcases nextHour_year d with h | h <;> simp [stepDate, h]

theorem stepInv_step (u : TUnit) (d : LocalDate) (h : StepInv u d) :
    StepInv u (stepDate u d) := by
  cases u with
  | day => exact nextDay_valid d h
  | month =>
    obtain ⟨⟨h1, h2, h3, h4, h5⟩, hday⟩ := h
    simp only [StepInv, stepDate] at *
    unfold nextMonth
    split_ifs with ha <;> simp only [ValidDate]
    · exact ⟨⟨by omega, ha, h3, by rw [hday]; exact daysInMonth_pos _ _, h5⟩, hday⟩
    · exact ⟨⟨by omega, by omega, h3, by rw [hday]; exact daysInMonth_pos _ _, h5⟩, hday⟩
  | hour =>
    obtain ⟨h1, h2, h3, h4, h5⟩ := h
    simp only [StepInv, stepDate] at *
    unfold nextHour
    split_ifs with ha <;> simp only [ValidDate]
    · exact ⟨h1, h2, h3, h4, by omega⟩
    · have hv := nextDay_valid ⟨d.year, d.month, d.day, 0⟩ ⟨h1, h2, h3, h4, by simp⟩
      obtain ⟨g1, g2, g3, g4, g5⟩ := hv
      exact ⟨g1, g2, g3, g4, by omega⟩

theorem stepInv_valid (u : TUnit) (d : LocalDate) (h : StepInv u d) : ValidDate d := by
  cases u with
  | day => exact h
  | month => exact h.1
  | hour => exact h

theorem keyMono (u : TUnit) (d : LocalDate) (h : StepInv u d)
    (hy1 : 1000 ≤ d.year) (hy2 : (stepDate u d).year ≤ 9999) :
    strLt (getAggregationKey d u) (getAggregationKey (stepDate u d) u) = true := by
  have hv := stepInv_valid u d h
  have hv2 := stepInv_valid u _ (stepInv_step u d h)
  have hyd : d.year ≤ 9999 := le_trans (stepDate_year_le u d) hy2
  have hy3 : 1000 ≤ (stepDate u d).year := le_trans hy1 (stepDate_year_le u d)
  obtain ⟨a1, a2, a3, a4, a5⟩ := hv
  obtain ⟨b1, b2, b3, b4, b5⟩ := hv2
  have am : d.month < 100 := by omega
  have ad : d.day < 100 := by
    have := daysInMonth_le d.year d.month
    omega
  have ah : d.hour < 100 := by omega
  have bm : (stepDate u d).month < 100 := by omega
  have bd : (stepDate u d).day < 100 := by
    have := daysInMonth_le (stepDate u d).year (stepDate u d).month
    omega
  have bh : (stepDate u d).hour < 100 := by omega
  cases u with
  | day =>
    rw [dayKey_lt_iff d (stepDate TUnit.day d) hy1 hyd hy3 hy2 am bm ad bd]
    simp only [stepDate]
    unfold nextDay
    split_ifs <;> simp <;> omega
  | month =>
    rw [monthKey_lt_iff d (stepDate TUnit.month d) hy1 hyd hy3 hy2 am bm]
    simp only [stepDate]
    unfold nextMonth
    split_ifs <;> simp <;> omega
  | hour =>
    rw [hourKey_lt_iff d (stepDate TUnit.hour d) hy1 hyd hy3 hy2 am bm ad bd ah bh]
    simp only [stepDate]
    unfold nextHour
    split_ifs with ha
    · simp
    · unfold nextDay
      split_ifs <;> simp <;> omega

end Cpusage

namespace Cpusage

theorem strLt_irrefl (s : String) : strLt s s = false := charListLt_irrefl s.data

theorem strLt_trans {a b c : String} (h1 : strLt a b = true) (h2 : strLt b c = true) :
    strLt a c = true := charListLt_trans h1 h2

theorem strLt_asymm {a b : String} (h : strLt a b = true) : strLt b a = false := by
  cases hx : strLt b a with
  | false => rfl
  | true =>
    have := strLt_trans h hx
    rw [strLt_irrefl] at this
    cases this

theorem stepInv_iterate (u : TUnit) (d : LocalDate) (h : StepInv u d) :
    ∀ n, StepInv u ((stepDate u)^[n] d) := by
  intro n
  induction n with
  | zero => simpa using h
  | succ k ih =>
    rw [Function.iterate_succ_apply']
    exact stepInv_step u _ ih

theorem year_iterate_le (u : TUnit) (d : LocalDate) :
    ∀ {i j : Nat}, i ≤ j →
      ((stepDate u)^[i] d).year ≤ ((stepDate u)^[j] d).year := by
  intro i j hij
  induction j with
  | zero =>
    have : i = 0 := Nat.le_zero.mp hij
    simp [this]
  | succ k ih =>
    rcases Nat.eq_or_lt_of_le hij with h | h
    · rw [h]
    · have h2 : i ≤ k := by omega
      refine le_trans (ih h2) ?_
      rw [Function.iterate_succ_apply']
      exact stepDate_year_le u _

theorem key_chain_lt (u : TUnit) (d : LocalDate) (hinv : StepInv u d)
    (hy : 1000 ≤ d.year) :
    ∀ {i j : Nat}, i < j → ((stepDate u)^[j] d).year ≤ 9999 →
      strLt (getAggregationKey ((stepDate u)^[i] d) u)
        (getAggregationKey ((stepDate u)^[j] d) u) = true := by
  intro i j
  induction j with
  | zero => omega
  | succ k ih =>
    intro hij hyk
    have hyk' : ((stepDate u)^[k] d).year ≤ 9999 :=
      le_trans (year_iterate_le u d (Nat.le_succ k)) hyk
    have hstep : strLt (getAggregationKey ((stepDate u)^[k] d) u)
        (getAggregationKey ((stepDate u)^[k + 1] d) u) = true := by
      have hk1 : ((stepDate u)^[k + 1] d) = stepDate u ((stepDate u)^[k] d) :=
        Function.iterate_succ_apply' _ _ _
      rw [hk1]
      refine keyMono u _ (stepInv_iterate u d hinv k) ?_ ?_
      · refine le_trans hy ?_
        have := year_iterate_le u d (Nat.zero_le k)
        simpa using this
      · rw [← hk1]
        exact hyk
    rcases Nat.lt_or_ge i k with h | h
    · exact strLt_trans (ih h hyk') hstep
    · have : i = k := by omega
      rw [this]
      exact hstep

theorem gapFillLoop_preserves (unit : TUnit) (maxKey : String) :
    ∀ (fuel : Nat) (agg : List (String × DailyStats)) (d : LocalDate)
      (curKey k : String) (v : DailyStats),
      getA agg k = some v →
      getA (gapFillLoop unit maxKey fuel agg d curKey) k = some v := by
  intro fuel
  induction fuel with
  | zero => intro agg d curKey k v h; exact h
  | succ f ih =>
    intro agg d curKey k v h
    rw [gapFillLoop]
    split
    · split
      · exact h
      · refine ih _ _ _ k v ?_
        split
        · exact h
        · rw [getA_append, h]
          rfl
    · exact h

theorem gapFillLoop_reaches (unit : TUnit) (maxKey : String) :
    ∀ (fuel j : Nat) (agg : List (String × DailyStats)) (d : LocalDate),
      1 ≤ j → j ≤ fuel →
      (∀ i, i < j → strLt (getAggregationKey ((stepDate unit)^[i] d) unit)
        (getAggregationKey ((stepDate unit)^[i + 1] d) unit) = true) →
      (∀ i, i < j → strLt (getAggregationKey ((stepDate unit)^[i] d) unit) maxKey = true) →
      strLt maxKey (getAggregationKey ((stepDate unit)^[j] d) unit) = false →
      getA (gapFillLoop unit maxKey fuel agg d (getAggregationKey d unit))
          (getAggregationKey ((stepDate unit)^[j] d) unit) =
        some ((getA agg (getAggregationKey ((stepDate unit)^[j] d) unit)).getD zeroStats) := by
  intro fuel
  induction fuel with
  | zero => intro j agg d h1 h2; omega
  | succ f ih =>
    intro j agg d hj1 hj2 hchain hbelow hmax
    have hcur : strLt (getAggregationKey d unit) maxKey = true := by
      have := hbelow 0 (by omega)
      simpa using this
    have hk2 : getAggregationKey (stepDate unit d) unit =
        getAggregationKey ((stepDate unit)^[1] d) unit := by
      rw [Function.iterate_one]
    rw [gapFillLoop, if_pos hcur]
    rcases Nat.eq_or_lt_of_le hj1 with hjeq | hjgt
    · -- j = 1 : the stepped key is the target key
      rw [← hjeq] at hmax ⊢
      rw [if_neg (by rw [hk2, hmax]; exact Bool.false_ne_true)]
      rw [← hk2]
      cases hg : getA agg (getAggregationKey (stepDate unit d) unit) with
      | some v =>
        simp only [hg, Option.getD_some]
        exact gapFillLoop_preserves unit maxKey f _ _ _ _ _ hg
      | none =>
        simp only [hg, Option.getD_none]
        refine gapFillLoop_preserves unit maxKey f _ _ _ _ _ ?_
        rw [getA_append, hg, getA_cons, if_pos rfl]
        rfl
    · -- j > 1 : recurse after the first step
      have hstep1 : strLt (getAggregationKey ((stepDate unit)^[1] d) unit)
          (getAggregationKey ((stepDate unit)^[j] d) unit) = true := by
        have haux : ∀ m, 1 + m ≤ j →
            strLt (getAggregationKey ((stepDate unit)^[1] d) unit)
              (getAggregationKey ((stepDate unit)^[1 + m] d) unit) = true ∨ m = 0 := by
          intro m
          induction m with
          | zero => intro _; exact Or.inr rfl
          | succ n ihn =>
            intro hle
            have hcn : strLt (getAggregationKey ((stepDate unit)^[1 + n] d) unit)
                (getAggregationKey ((stepDate unit)^[1 + n + 1] d) unit) = true :=
              hchain (1 + n) (by omega)
            rcases ihn (by omega) with h | h
            · left
              rw [show 1 + (n + 1) = 1 + n + 1 from by omega]
              exact strLt_trans h hcn
            · left
              rw [show 1 + (n + 1) = 1 + n + 1 from by omega]
              rw [h] at hcn ⊢
              simpa using hcn
        rcases haux (j - 1) (by omega) with h | h
        · rw [show 1 + (j - 1) = j from by omega] at h
          exact h
        · omega
      have hmax1 : strLt maxKey (getAggregationKey ((stepDate unit)^[1] d) unit) = false := by
        cases hx : strLt maxKey (getAggregationKey ((stepDate unit)^[1] d) unit) with
        | false => rfl
        | true =>
          have h2 := strLt_trans hx hstep1
          rw [hmax] at h2
          cases h2
      rw [if_neg (by rw [hk2, hmax1]; exact Bool.false_ne_true)]
      have hshift : ∀ i : Nat, (stepDate unit)^[i] (stepDate unit d) = (stepDate unit)^[i + 1] d := by
        intro i
        rw [← Function.iterate_succ_apply]
      have htail := ih (j - 1)
        (match getA agg (getAggregationKey (stepDate unit d) unit) with
          | some _ => agg
          | none => agg ++ [(getAggregationKey (stepDate unit d) unit, zeroStats)])
        (stepDate unit d) (by omega) (by omega)
        (by
          intro i hi
          rw [hshift i, hshift (i + 1)]
          exact hchain (i + 1) (by omega))
        (by
          intro i hi
          rw [hshift i]
          exact hbelow (i + 1) (by omega))
        (by
          rw [hshift (j - 1), show j - 1 + 1 = j from by omega]
          exact hmax)
      rw [hshift (j - 1), show j - 1 + 1 = j from by omega] at htail
      rw [htail]
      -- the inserted key differs from the target key
      have hne : getAggregationKey (stepDate unit d) unit ≠
          getAggregationKey ((stepDate unit)^[j] d) unit := by
        rw [hk2]
        intro hEq
        rw [hEq] at hstep1
        rw [strLt_irrefl] at hstep1
        cases hstep1
      congr 1
      cases hg : getA agg (getAggregationKey (stepDate unit d) unit) with
      | some v => rfl
      | none =>
        rw [getA_append]
        rw [getA_cons, if_neg (fun hx => hne hx.symm)]
        rw [getA_nil]
        cases getA agg (getAggregationKey ((stepDate unit)^[j] d) unit) <;> rfl

end Cpusage

namespace Cpusage

theorem digitChar_ne_hyphen (a : Nat) (h : a < 10) : Nat.digitChar a ≠ '-' := by
  interval_cases a <;> decide

theorem digitChar_ne_space (a : Nat) (h : a < 10) : Nat.digitChar a ≠ ' ' := by
  interval_cases a <;> decide

theorem digitChar_ne_colon (a : Nat) (h : a < 10) : Nat.digitChar a ≠ ':' := by
  interval_cases a <;> decide

theorem digitChar_val (a : Nat) (h : a < 10) : (Nat.digitChar a).toNat - '0'.toNat = a := by
  interval_cases a <;> decide

theorem not_mem_year (y : Nat) (b1 : 1000 ≤ y) (b2 : y ≤ 9999) (c : Char)
    (hc : ∀ a : Nat, a < 10 → Nat.digitChar a ≠ c) : c ∉ (natToStr y).data := by
  rw [natToStr_eq_four y b1 b2]
  intro hmem
  simp only [List.mem_cons, List.not_mem_nil, or_false] at hmem
  rcases hmem with h | h | h | h <;> exact hc _ (by omega) h.symm

theorem not_mem_pad2 (m : Nat) (hm : m < 100) (c : Char)
    (hc : ∀ a : Nat, a < 10 → Nat.digitChar a ≠ c) : c ∉ (pad2 m).data := by
  rw [pad2_data m hm]
  intro hmem
  simp only [List.mem_cons, List.not_mem_nil, or_false] at hmem
  rcases hmem with h | h <;> exact hc _ (by omega) h.symm

theorem splitCL_ne_nil (sep : Char) : ∀ l : List Char, splitCL sep l ≠ [] := by
  intro l
  cases l with
  | nil => simp [splitCL]
  | cons c t =>
    simp only [splitCL]
    cases hs : splitCL sep t with
    | nil => simp
    | cons h r =>
      by_cases hcs : c = sep
      · simp [hcs]
      · simp [hcs]

theorem splitCL_no_sep (sep : Char) : ∀ l : List Char, sep ∉ l → splitCL sep l = [l] := by
  intro l
  induction l with
  | nil => intro _; rfl
  | cons c t ih =>
    intro hmem
    have hc : c ≠ sep := fun h => hmem (by rw [h]; exact List.mem_cons_self _ _)
    have ht : sep ∉ t := fun h => hmem (List.mem_cons_of_mem _ h)
    simp only [splitCL, ih ht]
    rw [if_neg hc]

theorem splitCL_append (sep : Char) : ∀ (a b : List Char), sep ∉ a →
    splitCL sep (a ++ sep :: b) = a :: splitCL sep b := by
  intro a
  induction a with
  | nil =>
    intro b _
    simp only [List.nil_append, splitCL]
    cases hs : splitCL sep b with
    | nil => exact absurd hs (splitCL_ne_nil sep b)
    | cons h r => simp
  | cons c t ih =>
    intro b hmem
    have hc : c ≠ sep := fun h => hmem (by rw [h]; exact List.mem_cons_self _ _)
    have ht : sep ∉ t := fun h => hmem (List.mem_cons_of_mem _ h)
    simp only [List.cons_append, splitCL, List.append_eq]
    rw [ih b ht]
    simp only [if_neg hc]

theorem parseNatCL_year (y : Nat) (b1 : 1000 ≤ y) (b2 : y ≤ 9999) :
    parseNatCL (natToStr y).data = y := by
  rw [natToStr_eq_four y b1 b2]
  simp only [parseNatCL, List.foldl]
  rw [digitChar_val _ (by omega), digitChar_val _ (by omega),
    digitChar_val _ (by omega), digitChar_val _ (by omega)]
  omega

theorem parseNatCL_pad2 (m : Nat) (hm : m < 100) : parseNatCL (pad2 m).data = m := by
  rw [pad2_data m hm]
  simp only [parseNatCL, List.foldl]
  rw [digitChar_val _ (by omega), digitChar_val _ (by omega)]
  omega


theorem projDate_key (u : TUnit) (d : LocalDate) :
    getAggregationKey (projDate u d) u = getAggregationKey d u := by
  cases u <;> rfl

theorem projDate_year (u : TUnit) (d : LocalDate) : (projDate u d).year = d.year := by
  cases u <;> rfl

theorem projDate_inv (u : TUnit) (d : LocalDate) (hv : ValidDate d) :
    StepInv u (projDate u d) := by
  obtain ⟨h1, h2, h3, h4, h5⟩ := hv
  cases u with
  | day => exact ⟨h1, h2, h3, h4, by simp [projDate]⟩
  | month =>
    refine ⟨⟨h1, h2, by simp [projDate], ?_, by simp [projDate]⟩, rfl⟩
    simp only [projDate]
    exact daysInMonth_pos _ _
  | hour => exact ⟨h1, h2, h3, h4, h5⟩

theorem parseKey_roundtrip (u : TUnit) (d : LocalDate) (hv : ValidDate d)
    (b1 : 1000 ≤ d.year) (b2 : d.year ≤ 9999) :
    parseKeyToDate u (getAggregationKey d u) = projDate u d := by
  obtain ⟨h1, h2, h3, h4, h5⟩ := hv
  have hm : d.month < 100 := by omega
  have hd : d.day < 100 := by
    have := daysInMonth_le d.year d.month
    omega
  have hh : d.hour < 100 := by omega
  cases u with
  | day =>
    have hsplit : splitCL '-' (getAggregationKey d TUnit.day).data =
        [(natToStr d.year).data, (pad2 d.month).data, (pad2 d.day).data] := by
      rw [dayKey_data]
      rw [splitCL_append '-' _ _ (not_mem_year _ b1 b2 _ digitChar_ne_hyphen)]
      rw [splitCL_append '-' _ _ (not_mem_pad2 _ hm _ digitChar_ne_hyphen)]
      rw [splitCL_no_sep '-' _ (not_mem_pad2 _ hd _ digitChar_ne_hyphen)]
    simp only [parseKeyToDate, hsplit]
    rw [parseNatCL_year _ b1 b2, parseNatCL_pad2 _ hm, parseNatCL_pad2 _ hd]
    rfl
  | month =>
    have hsplit : splitCL '-' (getAggregationKey d TUnit.month).data =
        [(natToStr d.year).data, (pad2 d.month).data] := by
      rw [monthKey_data]
      rw [splitCL_append '-' _ _ (not_mem_year _ b1 b2 _ digitChar_ne_hyphen)]
      rw [splitCL_no_sep '-' _ (not_mem_pad2 _ hm _ digitChar_ne_hyphen)]
    simp only [parseKeyToDate, hsplit]
    rw [parseNatCL_year _ b1 b2, parseNatCL_pad2 _ hm]
    rfl
  | hour =>
    have hsplit1 : splitCL ' ' (getAggregationKey d TUnit.hour).data =
        [(natToStr d.year).data ++ '-' :: ((pad2 d.month).data ++ '-' :: (pad2 d.day).data),
          (pad2 d.hour).data ++ [':', '0', '0']] := by
      rw [hourKey_data]
      have hassoc : (natToStr d.year).data ++ '-' ::
          ((pad2 d.month).data ++ '-' ::
            ((pad2 d.day).data ++ ' ' :: ((pad2 d.hour).data ++ [':', '0', '0']))) =
          ((natToStr d.year).data ++ '-' ::
            ((pad2 d.month).data ++ '-' :: (pad2 d.day).data)) ++ ' ' ::
              ((pad2 d.hour).data ++ [':', '0', '0']) := by
        simp [List.append_assoc]
      rw [hassoc]
      rw [splitCL_append ' ' _ _ (by
        intro hmem
        simp only [List.mem_append, List.mem_cons, List.not_mem_nil, or_false] at hmem
        rcases hmem with h | h | h | h
        · exact not_mem_year _ b1 b2 _ digitChar_ne_space h
        · cases h
        · exact not_mem_pad2 _ hm _ digitChar_ne_space h
        · rcases h with h | h
          · cases h
          · exact not_mem_pad2 _ hd _ digitChar_ne_space h)]
      rw [splitCL_no_sep ' ' _ (by
        intro hmem
        simp only [List.mem_append, List.mem_cons, List.not_mem_nil, or_false] at hmem
        rcases hmem with h | h | h | h
        · exact not_mem_pad2 _ hh _ digitChar_ne_space h
        · cases h
        · cases h
        · cases h)]
    have hsplit2 : splitCL '-' ((natToStr d.year).data ++ '-' ::
        ((pad2 d.month).data ++ '-' :: (pad2 d.day).data)) =
        [(natToStr d.year).data, (pad2 d.month).data, (pad2 d.day).data] := by
      rw [splitCL_append '-' _ _ (not_mem_year _ b1 b2 _ digitChar_ne_hyphen)]
      rw [splitCL_append '-' _ _ (not_mem_pad2 _ hm _ digitChar_ne_hyphen)]
      rw [splitCL_no_sep '-' _ (not_mem_pad2 _ hd _ digitChar_ne_hyphen)]
    have hsplit3 : splitCL ':' ((pad2 d.hour).data ++ [':', '0', '0']) =
        [(pad2 d.hour).data, ['0', '0']] := by
      rw [show (pad2 d.hour).data ++ [':', '0', '0'] =
        (pad2 d.hour).data ++ ':' :: ['0', '0'] from rfl]
      rw [splitCL_append ':' _ _ (not_mem_pad2 _ hh _ digitChar_ne_colon)]
      rw [splitCL_no_sep ':' _ (by decide)]
    simp only [parseKeyToDate, hsplit1, hsplit2, hsplit3]
    rw [parseNatCL_year _ b1 b2, parseNatCL_pad2 _ hm, parseNatCL_pad2 _ hd,
      parseNatCL_pad2 _ hh]
    rfl

end Cpusage

namespace Cpusage

theorem strLt_total (a b : String) (h : strLt a b = false) :
    a = b ∨ strLt b a = true := by
  rcases charListLt_total h with h2 | h2
  · left
    cases a
    cases b
    exact congrArg String.mk h2
  · right
    exact h2

/-- C6: gap filling. First part: every populated bucket keeps its value
through gapFill. Second part: when the keys are not rank-sorted (the caller
guard) and the buckets are keyed by unit keys of valid dates with
four-digit years, every unit-step key reached from the earliest key that
does not lie beyond the latest key is present after gapFill, carrying the
original bucket when one existed and the zero bucket otherwise. -/
theorem c6_gap_fill :
    (∀ (unit : TUnit) (agg : List (String × DailyStats)) (k : String) (v : DailyStats),
      getA agg k = some v → getA (gapFill unit agg) k = some v) ∧
    (∀ (unit : TUnit) (agg : List (String × DailyStats)) (minKey : String)
        (rest : List String) (j : Nat),
      List.insertionSort keyLe (agg.map (·.1)) = minKey :: rest →
      (∀ k ∈ agg.map (·.1), ∃ d : LocalDate, ValidDate d ∧ 1000 ≤ d.year ∧
        d.year ≤ 9999 ∧ k = getAggregationKey d unit) →
      1 ≤ j → j ≤ gapFillFuel →
      ((stepDate unit)^[j] (parseKeyToDate unit minKey)).year ≤ 9999 →
      strLt ((minKey :: rest).getLastD minKey)
        (getAggregationKey ((stepDate unit)^[j] (parseKeyToDate unit minKey)) unit) = false →
      getA (gapFill unit agg)
          (getAggregationKey ((stepDate unit)^[j] (parseKeyToDate unit minKey)) unit) =
        some ((getA agg
          (getAggregationKey ((stepDate unit)^[j] (parseKeyToDate unit minKey)) unit)).getD
            zeroStats)) := by
  constructor
  · intro unit agg k v h
    cases hs : List.insertionSort keyLe (agg.map (·.1)) with
    | nil =>
      simp only [gapFill, hs]
      exact h
    | cons mk rest =>
      simp only [gapFill, hs]
      exact gapFillLoop_preserves unit _ _ _ _ _ k v h
  · intro unit agg minKey rest j hsort hvalid hj1 hj2 hyear hmax
    have hperm := List.perm_insertionSort keyLe (agg.map (·.1))
    rw [hsort] at hperm
    have hmin_mem : minKey ∈ agg.map (·.1) :=
      hperm.mem_iff.mp (List.mem_cons_self _ _)
    obtain ⟨dm, hdv, hdy1, hdy2, hkey⟩ := hvalid minKey hmin_mem
    have hd0 : parseKeyToDate unit minKey = projDate unit dm := by
      rw [hkey]
      exact parseKey_roundtrip unit dm hdv hdy1 hdy2
    rw [hd0] at hyear hmax ⊢
    have hinv0 : StepInv unit (projDate unit dm) := projDate_inv unit dm hdv
    have hy0 : 1000 ≤ (projDate unit dm).year := by
      rw [projDate_year]
      exact hdy1
    have hk0 : getAggregationKey (projDate unit dm) unit = minKey := by
      rw [projDate_key, ← hkey]
    have hchain : ∀ i, i < j →
        strLt (getAggregationKey ((stepDate unit)^[i] (projDate unit dm)) unit)
          (getAggregationKey ((stepDate unit)^[i + 1] (projDate unit dm)) unit) = true := by
      intro i hi
      exact key_chain_lt unit _ hinv0 hy0 (by omega)
        (le_trans (year_iterate_le unit _ (show i + 1 ≤ j by omega)) hyear)
    have hbelow : ∀ i, i < j →
        strLt (getAggregationKey ((stepDate unit)^[i] (projDate unit dm)) unit)
          ((minKey :: rest).getLastD minKey) = true := by
      intro i hi
      have hij := key_chain_lt unit _ hinv0 hy0 hi hyear
      rcases strLt_total _ _ hmax with hEq | hlt
      · rw [hEq]
        exact hij
      · exact strLt_trans hij hlt
    have hres := gapFillLoop_reaches unit ((minKey :: rest).getLastD minKey)
      gapFillFuel j agg (projDate unit dm) hj1 hj2 hchain hbelow hmax
    rw [hk0] at hres
    simp only [gapFill, hsort]
    rw [hd0]
    exact hres

/-- C6 witness: day buckets on 2025-01-01 and 2025-01-03 produce, after
gap filling, a zero bucket keyed 2025-01-02. -/
theorem c6_gap_fill_witness :
    getA (gapFill TUnit.day [("2025-01-01", zeroStats), ("2025-01-03", zeroStats)])
      "2025-01-02" = some zeroStats := by
  have h := c6_gap_fill.2 TUnit.day [("2025-01-01", zeroStats), ("2025-01-03", zeroStats)]
    "2025-01-01" ["2025-01-03"] 1
    (by decide)
    (by
      intro k hk
      simp only [List.map_cons, List.map_nil, List.mem_cons, List.not_mem_nil,
        or_false] at hk
      rcases hk with rfl | rfl
      · exact ⟨⟨2025, 1, 1, 0⟩, by decide, by norm_num, by norm_num, by decide⟩
      · exact ⟨⟨2025, 1, 3, 0⟩, by decide, by norm_num, by norm_num, by decide⟩)
    (by norm_num)
    (by norm_num [gapFillFuel])
    (by decide)
    (by decide)
  rw [show getAggregationKey
      ((stepDate TUnit.day)^[1] (parseKeyToDate TUnit.day "2025-01-01")) TUnit.day =
    "2025-01-02" from by decide] at h
  rw [show getA [("2025-01-01", zeroStats), ("2025-01-03", zeroStats)] "2025-01-02" =
    (none : Option DailyStats) from rfl] at h
  simpa using h

end Cpusage
